import Mathlib

/-!
# Verification of the COSMIS scoring pipeline

Shallow embedding of the core of the `cosmis` repository: the two driver
programs `cosmis.py` (transcript-centric) and `cosmis_sp.py`
(protein-centric).  Python `dict[int, int]` objects used with
`defaultdict(int)` / `dict.setdefault` semantics are embedded as
insertion-ordered association lists; Python float arithmetic on mutation
rates and allele frequencies is embedded as exact rational arithmetic
(`ℚ`); fallible code paths (KeyError / IndexError / `sys.exit`) are made
explicit in the result types.  Residue and peptide positions are natural
numbers (the drivers use 1-based positive numbering; Python's negative
index wrap-around, which can only arise from non-positive structural
residue numbers, is outside the embedding).

Functions of the `cosmis.utils.seq_utils` module are called by the
drivers but the module itself is not part of the sources; where a claim
depends on such a function it is modelled from the specification and the
definition's doc comment says so.
-/

namespace Cosmis

/-! ## Python dictionaries

`Dict` embeds a Python `dict[int, int]` as an insertion-ordered
association list.  `dincr` is `defaultdict(int)` increment
(`d[k] += 1`), `dsetdefault` is `d.setdefault(k, 0)` which returns the
stored value (or 0) and, when the key is absent, inserts it with value
0 as a side effect. -/

abbrev Dict := List (Nat × Nat)

/-- Lookup `d[k]`: `some v` when the key is present, `none` otherwise. -/
def dget : Dict → Nat → Option Nat
  | [], _ => none
  | p :: rest, k => if p.1 = k then some p.2 else dget rest k

/-- Lookup defaulting to 0 (a pure read; no insertion). -/
def dgetD (d : Dict) (k : Nat) : Nat := (dget d k).getD 0

/-- Key-membership test. -/
def dcontains (d : Dict) (k : Nat) : Bool := (dget d k).isSome

/-- The `defaultdict(int)` increment `d[k] += 1`: updates the stored value in
place, or appends the key with value 1 (Python dicts preserve insertion
order). -/
def dincr : Dict → Nat → Dict
  | [], k => [(k, 1)]
  | p :: rest, k => if p.1 = k then (p.1, p.2 + 1) :: rest else p :: dincr rest k

/-- Python `d.setdefault(k, 0)`: returns the value stored at `k` (0 when
absent) and the updated dictionary (the key is inserted with value 0
when it was absent). -/
def dsetdefault (d : Dict) (k : Nat) : Nat × Dict :=
  match dget d k with
  | some v => (v, d)
  | none => (0, d ++ [(k, 0)])

/-- Sum of all stored values. -/
def dtotal (d : Dict) : Nat := (d.map (fun p => p.2)).sum

/-! ## Variants and the variant tabulator

A gnomAD variant record, as consumed by `count_variants`: in the Python
sources a variant is a triple `(vv, ac, an)` where `vv` is a change
string whose first character is the wild-type amino acid (`vv[0]`),
whose last character is the mutant amino acid (`vv[-1]`) and whose
middle (`vv[1:-1]`) is the 1-based peptide position; `ac`/`an` are
allele count and allele number.  The embedding carries the three parsed
components of the change string directly. -/

structure Variant where
  wt : Char
  pos : Nat
  mt : Char
  ac : Nat
  an : Nat
deriving DecidableEq

/-- One iteration of the loop body of `count_variants` in `cosmis.py`
(transcript-centric driver): variants with allele frequency
`ac / an > 0.001` are skipped; otherwise the variant is classified as
missense (`wt ≠ mt`) or synonymous (`wt = mt`) and tallied at its
position.  Python's float division is embedded as exact rational
division (the driver crashes on `an = 0`; theorems assume `0 < an`). -/
def cvStep (m : Dict × Dict) (v : Variant) : Dict × Dict :=
  if (1 / 1000 : ℚ) < (v.ac : ℚ) / (v.an : ℚ) then m
  else if v.wt ≠ v.mt then (dincr m.1 v.pos, m.2)
  else (m.1, dincr m.2 v.pos)

/-- Function `count_variants` of `cosmis.py`: returns the pair
(missense_counts, synonymous_counts). -/
def count_variants (variants : List Variant) : Dict × Dict :=
  variants.foldl cvStep ([], [])

/-- One iteration of the loop body of `count_variants` in
`cosmis_sp.py` (protein-centric driver): the frequency filter is
commented out, every variant is tallied. -/
def cvStep_sp (m : Dict × Dict) (v : Variant) : Dict × Dict :=
  if v.wt ≠ v.mt then (dincr m.1 v.pos, m.2)
  else (m.1, dincr m.2 v.pos)

/-- Function `count_variants` of `cosmis_sp.py`. -/
def count_variants_sp (variants : List Variant) : Dict × Dict :=
  variants.foldl cvStep_sp ([], [])

/-- The comprehension `{pos: 1 for pos, _ in counts.items()}` — the site-variability maps
built from the count dictionaries in both drivers. -/
def site_variability (d : Dict) : Dict := d.map (fun p => (p.1, 1))

/-- The variants of a list that the `cosmis.py` frequency filter keeps. -/
def keptVariants (variants : List Variant) : List Variant :=
  variants.filter (fun v => !(decide ((1 / 1000 : ℚ) < (v.ac : ℚ) / (v.an : ℚ))))

/-! ## Modelled `seq_utils` functions

`cosmis.utils.seq_utils` is referenced by both drivers but is not among
the source files; the parts the claims depend on are modelled from the
specification. -/

/-- The codons (nucleotide triplets) of a coding sequence, in order.
Modelled from the spec: a CodingSequence is an "ordered sequence of
nucleotide triplets (codons), 1-indexed by codon position". -/
def codons : List Char → List (List Char)
  | a :: b :: c :: rest => [a, b, c] :: codons rest
  | _ => []

/-- Modelled from the spec: `seq_utils.count_poss_ns_variants` is not
under `src/`.  Per §4.1 it yields one (possible-missense,
possible-synonymous) pair per codon; the per-codon arithmetic is
abstracted as the parameter `f`, only the shape (one entry per codon)
is modelled. -/
def count_poss_ns_variants (f : List Char → Nat × Nat) (cds : List Char) :
    List (Nat × Nat) :=
  (codons cds).map f

/-- Modelled from the spec: `seq_utils.count_ns_sites` is not under
`src/`.  Per §4.1 it yields one (missense-sites, synonymous-sites) pair
per codon; the fractional per-codon arithmetic is abstracted as `f`. -/
def count_ns_sites (f : List Char → ℚ × ℚ) (cds : List Char) :
    List (ℚ × ℚ) :=
  (codons cds).map f

/-- Modelled from the spec: `seq_utils.get_codon_mutation_rates` is not
under `src/`.  Per §4.1 it yields one (synonymous-rate, missense-rate)
pair per codon; the trinucleotide-table arithmetic is abstracted as
`f`. -/
def get_codon_mutation_rates (f : List Char → ℚ × ℚ) (cds : List Char) :
    List (ℚ × ℚ) :=
  (codons cds).map f

/-- The codon window of 1-based codon position `p`, empty when `p` is
outside the coding sequence. -/
def codonOf (cds : List Char) (p : Nat) : List Char :=
  if 1 ≤ p ∧ 3 * p ≤ cds.length then (cds.drop (3 * (p - 1))).take 3 else []

/-- Modelled from the spec: `seq_utils.get_codon_seq_context` is not
under `src/`.  Per §4.3 it is the concatenated nucleotide context of the
codon windows of the given positions, out-of-range positions being
dropped, not fatal. -/
def get_codon_seq_context (ps : List Nat) (cds : List Char) : List Char :=
  ps.foldr (fun p acc => codonOf cds p ++ acc) []

/-- Modelled from the spec: `seq_utils.is_valid_cds` is not under
`src/`.  Per §3 and §4.5 a valid CDS has length a multiple of 3 and
alphabet contained in A, T, C, G. -/
def is_valid_cds (cds : List Char) : Bool :=
  cds.length % 3 == 0 &&
    cds.all (fun c => c == 'A' || c == 'T' || c == 'C' || c == 'G')

/-- Trimming `cds = cds[:-3]` — the removal of the trailing stop codon before
computing the per-codon arrays in `cosmis_sp.py` (line 339). -/
def trim_stop (cds : List Char) : List Char := cds.take (cds.length - 3)

/-- Modelled from the spec: the p-value component of
`seq_utils.get_permutation_stats` (not under `src/`).  Per §4.4 the
p-value is the fraction of trials whose simulated contact-set total
(the sum of the trial row at the 1-based contact positions) is at least
the observed count, with a floor of `1 / trial_count`; the mean and
standard-deviation components are not needed by the claims. -/
def permutation_p_value (matrix : List (List Nat)) (positions : List Nat)
    (observed : Nat) : ℚ :=
  let totals := matrix.map (fun row => (positions.map (fun p => row.getD (p - 1) 0)).sum)
  let n := matrix.length
  max (((totals.filter (fun t => decide (observed ≤ t))).length : ℚ) / n) (1 / n)

/-! ## Aggregated per-position record

The part of one output row that the claims are about: identifiers,
position, amino acid, the reported contact count, and the aggregated
statistics.  Output-only formatting (sequence separations, GC fraction,
permutation columns, phyloP column, transcript-level totals) is not
carried. -/

structure FullRecord where
  pos : Nat
  aa : Char
  numContacts : Nat
  misVarSites : Nat
  synVarSites : Nat
  misObs : Nat
  synObs : Nat
  misPoss : Nat
  synPoss : Nat
  misSites : ℚ
  synSites : ℚ
  synRate : ℚ
  misRate : ℚ
deriving DecidableEq

/-- The four per-position dictionaries threaded through the scoring
loops: missense_counts, synonymous_counts, site_variability_missense,
site_variability_synonymous. -/
structure Dicts where
  mis : Dict
  syn : Dict
  misVar : Dict
  synVar : Dict
deriving DecidableEq

/-- Outcome of the whole per-position loop of a driver. -/
inductive RunOutcome where
  | ok
  | invalid
  | crashed
deriving DecidableEq

/-! ## The protein-centric driver `cosmis_sp.py` (per-position loop)

`spNeighborLoop` embeds the inner loop `for j in contacts_pdb_pos`
(lines 416–433): each neighbor's four `setdefault` reads are added to
the accumulators, then the three per-codon arrays are read at `j - 1`;
an out-of-range read sets `valid_case = False` and breaks.
`spStep` embeds one iteration of the outer loop (lines 386–484);
`spRun` the outer loop itself, with `RunOutcome.invalid` for
`valid_case = False` (which makes `main` call `sys.exit(1)`). -/

def spNeighborLoop (nsCounts : List (Nat × Nat)) (nsSites rates : List (ℚ × ℚ)) :
    List Nat → FullRecord → Dicts → FullRecord × Dicts × Bool
  | [], r, d => (r, d, true)
  | j :: rest, r, d =>
    let d1 : Dicts := ⟨(dsetdefault d.mis j).2, (dsetdefault d.syn j).2,
      (dsetdefault d.misVar j).2, (dsetdefault d.synVar j).2⟩
    let r1 := { r with
      misVarSites := r.misVarSites + (dsetdefault d.misVar j).1,
      synVarSites := r.synVarSites + (dsetdefault d.synVar j).1,
      misObs := r.misObs + (dsetdefault d.mis j).1,
      synObs := r.synObs + (dsetdefault d.syn j).1 }
    match nsCounts[j - 1]? with
    | none => (r1, d1, false)
    | some c =>
      let r2 := { r1 with misPoss := r1.misPoss + c.1, synPoss := r1.synPoss + c.2 }
      match rates[j - 1]? with
      | none => (r2, d1, false)
      | some u =>
        let r3 := { r2 with synRate := r2.synRate + u.1, misRate := r2.misRate + u.2 }
        match nsSites[j - 1]? with
        | none => (r3, d1, false)
        | some s =>
          spNeighborLoop nsCounts nsSites rates rest
            { r3 with misSites := r3.misSites + s.1, synSites := r3.synSites + s.2 } d1

/-- Outcome of one iteration of the `cosmis_sp.py` per-position loop:
`skipMissing` — the structure lacks the residue (`continue`, no row);
`abortMismatch` — sequence/structure residue mismatch
(`valid_case = False`, `break`); `abortOutOfRange` — a contacting
neighbor's per-codon lookup was out of range (`valid_case = False`,
`break`); `skipEmptyContext` — empty nucleotide context (`continue`,
no row); `crash` — an unguarded center-position array lookup raised
IndexError (uncaught); `emit` — a full row is appended. -/
inductive SpStepOut where
  | skipMissing
  | abortMismatch
  | abortOutOfRange
  | skipEmptyContext
  | crash
  | emit (r : FullRecord)
deriving DecidableEq

def spStep (chain : Nat → Option Char) (contactsOf : Nat → List Nat)
    (nsCounts : List (Nat × Nat)) (nsSites rates : List (ℚ × ℚ))
    (cds : List Char) (d : Dicts) (pos : Nat) (aa : Char) :
    SpStepOut × Dicts :=
  match chain pos with
  | none => (.skipMissing, d)
  | some pdbAa =>
    if aa ≠ pdbAa then (.abortMismatch, d)
    else
      match nsSites[pos - 1]? with
      | none => (.crash, { d with misVar := (dsetdefault d.misVar pos).2 })
      | some s =>
        let d1 : Dicts := ⟨(dsetdefault d.mis pos).2, (dsetdefault d.syn pos).2,
          (dsetdefault d.misVar pos).2, (dsetdefault d.synVar pos).2⟩
        match nsCounts[pos - 1]?, rates[pos - 1]? with
        | some c, some u =>
          let r0 : FullRecord := {
            pos := pos, aa := aa, numContacts := (contactsOf pos).length + 1,
            misVarSites := (dsetdefault d.misVar pos).1,
            synVarSites := (dsetdefault d.synVar pos).1,
            misObs := (dsetdefault d.mis pos).1,
            synObs := (dsetdefault d.syn pos).1,
            misPoss := c.1, synPoss := c.2, misSites := s.1, synSites := s.2,
            synRate := u.1, misRate := u.2 }
          match spNeighborLoop nsCounts nsSites rates (contactsOf pos) r0 d1 with
          | (r1, d2, ok) =>
            if ok then
              if (get_codon_seq_context (contactsOf pos ++ [pos]) cds).length = 0 then
                (.skipEmptyContext, d2)
              else (.emit r1, d2)
            else (.abortOutOfRange, d2)
        | _, _ => (.crash, d1)

def spRun (chain : Nat → Option Char) (contactsOf : Nat → List Nat)
    (nsCounts : List (Nat × Nat)) (nsSites rates : List (ℚ × ℚ))
    (cds : List Char) :
    List (Nat × Char) → Dicts → List FullRecord × Dicts × RunOutcome
  | [], d => ([], d, .ok)
  | (p, a) :: rest, d =>
    match spStep chain contactsOf nsCounts nsSites rates cds d p a with
    | (.skipMissing, d') => spRun chain contactsOf nsCounts nsSites rates cds rest d'
    | (.skipEmptyContext, d') => spRun chain contactsOf nsCounts nsSites rates cds rest d'
    | (.abortMismatch, d') => ([], d', .invalid)
    | (.abortOutOfRange, d') => ([], d', .invalid)
    | (.crash, d') => ([], d', .crashed)
    | (.emit r, d') =>
      match spRun chain contactsOf nsCounts nsSites rates cds rest d' with
      | (rs, d'', o) => (r :: rs, d'', o)

/-! ## The transcript-centric driver `cosmis.py` (per-position loop)

`cosNeighborLoop` embeds the inner loop `for j in contacts_pdb_pos`
(lines 527–560): a neighbor is first mapped to a peptide position via
the SIFTS `pdb_to_uniprot` mapping (KeyError: the neighbor is skipped
entirely); the four `setdefault` reads are then added to the observed
accumulators, and the per-codon array reads at the mapped position are
guarded — an IndexError skips only this neighbor's expected-count
contributions (`continue`), the row is still produced.
`cosStep` embeds one iteration of the outer loop (lines 448–596):
an unmapped or unresolved position appends a NaN-filled row
(`[i, a] + [np.nan] * 10`), a residue mismatch appends a partial row
(`[i, a, pdb_pos, pdb_aa] + [np.nan] * 8`), a center-position
IndexError in the guarded block (per-codon arrays and the phyloP list)
skips the position with no row, the unguarded genomic-coordinate
lookup crashes the run when out of range, and a position with no
contacts produces no row. -/

inductive CosRow where
  | nanRow (pos : Nat) (aa : Char)
  | mismatchRow (pos : Nat) (aa : Char) (pdbPos : Nat) (pdbAa : Char)
  | fullRow (r : FullRecord)
deriving DecidableEq

inductive CosStepOut where
  | row (r : CosRow)
  | idxSkip
  | skipEmptyContext
  | noContacts
  | crash
deriving DecidableEq

def cosNeighborLoop (mapToPep : Nat → Option Nat)
    (nsCounts : List (Nat × Nat)) (nsSites rates : List (ℚ × ℚ)) :
    List Nat → FullRecord → Dicts → FullRecord × Dicts
  | [], r, d => (r, d)
  | j :: rest, r, d =>
    match mapToPep j with
    | none => cosNeighborLoop mapToPep nsCounts nsSites rates rest r d
    | some q =>
      let d1 : Dicts := ⟨(dsetdefault d.mis q).2, (dsetdefault d.syn q).2,
        (dsetdefault d.misVar q).2, (dsetdefault d.synVar q).2⟩
      let r1 := { r with
        misObs := r.misObs + (dsetdefault d.mis q).1,
        synObs := r.synObs + (dsetdefault d.syn q).1,
        misVarSites := r.misVarSites + (dsetdefault d.misVar q).1,
        synVarSites := r.synVarSites + (dsetdefault d.synVar q).1 }
      match nsCounts[q - 1]? with
      | none => cosNeighborLoop mapToPep nsCounts nsSites rates rest r1 d1
      | some c =>
        let r2 := { r1 with misPoss := r1.misPoss + c.1, synPoss := r1.synPoss + c.2 }
        match nsSites[q - 1]? with
        | none => cosNeighborLoop mapToPep nsCounts nsSites rates rest r2 d1
        | some s =>
          let r3 := { r2 with misSites := r2.misSites + s.1, synSites := r2.synSites + s.2 }
          match rates[q - 1]? with
          | none => cosNeighborLoop mapToPep nsCounts nsSites rates rest r3 d1
          | some u =>
            cosNeighborLoop mapToPep nsCounts nsSites rates rest
              { r3 with synRate := r3.synRate + u.1, misRate := r3.misRate + u.2 } d1

def cosStep (mapToPdb : Nat → Option Nat) (chainRes : Nat → Option Char)
    (contactsOf : Nat → List Nat) (mapToPep : Nat → Option Nat)
    (nsCounts : List (Nat × Nat)) (nsSites rates : List (ℚ × ℚ))
    (phylop : List ℚ) (coords : List ℚ) (cds : List Char)
    (d : Dicts) (i : Nat) (a : Char) : CosStepOut × Dicts :=
  match mapToPdb i with
  | none => (.row (.nanRow i a), d)
  | some pdbPos =>
    match chainRes pdbPos with
    | none => (.row (.nanRow i a), d)
    | some pdbAa =>
      if a ≠ pdbAa then (.row (.mismatchRow i a pdbPos pdbAa), d)
      else
        let d1 : Dicts := ⟨(dsetdefault d.mis i).2, (dsetdefault d.syn i).2,
          (dsetdefault d.misVar i).2, (dsetdefault d.synVar i).2⟩
        match nsCounts[i - 1]?, nsSites[i - 1]?, rates[i - 1]?,
            phylop[i - 1]? with
        | some c, some s, some u, some _ =>
          match coords[i - 1]? with
          | none => (.crash, d1)
          | some _ =>
            if (get_codon_seq_context (contactsOf pdbPos ++ [i]) cds).length = 0 then
              (.skipEmptyContext, d1)
            else if (contactsOf pdbPos).isEmpty then (.noContacts, d1)
            else
              let r0 : FullRecord := {
                pos := i, aa := a, numContacts := (contactsOf pdbPos).length + 1,
                misVarSites := (dsetdefault d.misVar i).1,
                synVarSites := (dsetdefault d.synVar i).1,
                misObs := (dsetdefault d.mis i).1,
                synObs := (dsetdefault d.syn i).1,
                misPoss := c.1, synPoss := c.2, misSites := s.1, synSites := s.2,
                synRate := u.1, misRate := u.2 }
              match cosNeighborLoop mapToPep nsCounts nsSites rates
                  (contactsOf pdbPos) r0 d1 with
              | (r1, d2) => (.row (.fullRow r1), d2)
        | _, _, _, _ => (.idxSkip, d1)

def cosRun (mapToPdb : Nat → Option Nat) (chainRes : Nat → Option Char)
    (contactsOf : Nat → List Nat) (mapToPep : Nat → Option Nat)
    (nsCounts : List (Nat × Nat)) (nsSites rates : List (ℚ × ℚ))
    (phylop : List ℚ) (coords : List ℚ) (cds : List Char) :
    List (Nat × Char) → Dicts → List CosRow × Dicts × RunOutcome
  | [], d => ([], d, .ok)
  | (i, a) :: rest, d =>
    match cosStep mapToPdb chainRes contactsOf mapToPep nsCounts nsSites rates
        phylop coords cds d i a with
    | (.row r, d') =>
      match cosRun mapToPdb chainRes contactsOf mapToPep nsCounts nsSites rates
          phylop coords cds rest d' with
      | (rs, d'', o) => (r :: rs, d'', o)
    | (.idxSkip, d') =>
      cosRun mapToPdb chainRes contactsOf mapToPep nsCounts nsSites rates
        phylop coords cds rest d'
    | (.skipEmptyContext, d') =>
      cosRun mapToPdb chainRes contactsOf mapToPep nsCounts nsSites rates
        phylop coords cds rest d'
    | (.noContacts, d') =>
      cosRun mapToPdb chainRes contactsOf mapToPep nsCounts nsSites rates
        phylop coords cds rest d'
    | (.crash, d') => ([], d', .crashed)

/-! ## `retrieve_data` of `cosmis_sp.py` (lines 143–188) -/

/-- The error outcomes of `retrieve_data`: `valueError` is the raised
ValueError when no transcript passes CDS validation; `noRecord` is the
documented `KeyError('Error: No record for ... in gnomAD.')` raised in
the single-valid-transcript case; `keyError k` is a raw, undocumented
KeyError escaping from a dictionary subscript at key `k`. -/
inductive RdErr where
  | valueError
  | noRecord (uniprotId : String)
  | keyError (key : String)
deriving DecidableEq

/-- The `valid_ensts` filter of `retrieve_data`: transcripts whose CDS
is present, passes `is_valid_cds`, and satisfies
`len(pep_seq) == len(cds_seq) // 3 - 1`. -/
def valid_ensts_of (pepLen : Nat) (cdsD : String → Option (List Char))
    (ensts : List String) : List String :=
  ensts.filter (fun e =>
    match cdsD e with
    | none => false
    | some cds => is_valid_cds cds && pepLen == cds.length / 3 - 1)

/-- One iteration of the multi-transcript arbitration of
`retrieve_data` (lines 177–184): a transcript without a variant entry
is skipped (`except KeyError: continue`); one whose variant count
strictly exceeds the current maximum becomes the new choice. -/
def pickStep (varD : String → Option (List Variant)) (acc : Nat × String)
    (e : String) : Nat × String :=
  match varD e with
  | none => acc
  | some vs => if acc.1 < vs.length then (vs.length, e) else acc

/-- The multi-transcript arbitration of `retrieve_data` (lines
173–184): starting from `max_len = 0`, `right_enst = ''`, each valid
transcript with a variant entry strictly exceeding the current maximum
becomes the new choice. -/
def pick_enst (varD : String → Option (List Variant)) (valids : List String) :
    String :=
  (valids.foldl (pickStep varD) (0, "")).2

def retrieve_data (uniprotId : String) (ensts : List String)
    (pepD : String → Option (List Char)) (cdsD : String → Option (List Char))
    (varD : String → Option (List Variant)) :
    Except RdErr (String × List Char × List Char × List Variant) :=
  match pepD uniprotId with
  | none => .error (.keyError uniprotId)
  | some pep =>
    match valid_ensts_of pep.length cdsD ensts with
    | [] => .error .valueError
    | [e] =>
      match cdsD e with
      | none => .error (.keyError e)
      | some cds =>
        match varD e with
        | none => .error (.noRecord uniprotId)
        | some vs => .ok (e, pep, cds, vs)
    | e1 :: e2 :: rest =>
      let best := pick_enst varD (e1 :: e2 :: rest)
      match cdsD best with
      | none => .error (.keyError best)
      | some cds =>
        match varD best with
        | none => .error (.keyError best)
        | some vs => .ok (best, pep, cds, vs)

/-! ## Dictionary lemmas -/

theorem dget_append (a b : Dict) (k : Nat) :
    dget (a ++ b) k = match dget a k with
      | some v => some v
      | none => dget b k := by
  induction a with
  | nil => simp [dget]
  | cons p rest ih =>
    by_cases h : p.1 = k <;> simp [dget, h, ih]

theorem dsetdefault_fst (d : Dict) (k : Nat) :
    (dsetdefault d k).1 = dgetD d k := by
  unfold dsetdefault dgetD
  cases dget d k <;> simp

theorem dsetdefault_getD (d : Dict) (k k' : Nat) :
    dgetD (dsetdefault d k).2 k' = dgetD d k' := by
  unfold dsetdefault
  cases h : dget d k with
  | some v => simp
  | none =>
    simp only [dgetD, dget_append]
    cases h' : dget d k' with
    | some v => simp
    | none =>
      by_cases hkk : k = k' <;> simp [dget, hkk]

theorem dsetdefault_contains_self (d : Dict) (k : Nat) :
    dcontains (dsetdefault d k).2 k = true := by
  unfold dsetdefault
  cases h : dget d k with
  | some v => simp [dcontains, h]
  | none => simp [dcontains, dget_append, h, dget]

theorem dsetdefault_contains_mono (d : Dict) (k k' : Nat)
    (h : dcontains d k' = true) :
    dcontains (dsetdefault d k).2 k' = true := by
  unfold dsetdefault
  cases hg : dget d k with
  | some v => simpa using h
  | none =>
    simp only [dcontains, dget_append]
    simp only [dcontains] at h
    cases h' : dget d k' with
    | some v => simp
    | none => rw [h'] at h; simp at h

theorem dsetdefault_none (d : Dict) (k : Nat) (h : dget d k = none) :
    (dsetdefault d k).1 = 0 ∧ (dsetdefault d k).2 = d ++ [(k, 0)] := by
  simp [dsetdefault, h]

theorem dincr_total (d : Dict) (k : Nat) :
    dtotal (dincr d k) = dtotal d + 1 := by
  induction d with
  | nil => simp [dincr, dtotal]
  | cons p rest ih =>
    by_cases h : p.1 = k <;> simp [dincr, h, dtotal] at ih ⊢ <;> omega

theorem dincr_getD_self (d : Dict) (k : Nat) :
    dgetD (dincr d k) k = dgetD d k + 1 := by
  induction d with
  | nil => simp [dincr, dgetD, dget]
  | cons p rest ih =>
    by_cases h : p.1 = k
    · simp [dincr, h, dgetD, dget]
    · simp [dincr, h, dgetD, dget] at ih ⊢
      exact ih

/-! ## C4: the frequency filter of `count_variants` -/

theorem count_variants_skip_of_filtered (pre post : List Variant) (v : Variant)
    (hf : (1 / 1000 : ℚ) < (v.ac : ℚ) / (v.an : ℚ)) :
    count_variants (pre ++ v :: post) = count_variants (pre ++ post) := by
  unfold count_variants
  rw [List.foldl_append, List.foldl_append, List.foldl_cons]
  have hstep : cvStep (List.foldl cvStep ([], []) pre) v =
      List.foldl cvStep ([], []) pre := by
    unfold cvStep
    rw [if_pos hf]
  rw [hstep]

/-- Claim C4: in `count_variants` of the transcript-centric driver
(`cosmis.py`, the pipeline variant that applies the 0.001 frequency
threshold), a variant with `allele_count / allele_number` strictly
greater than `1/1000` is excluded entirely — it contributes to neither
the missense nor the synonymous count mapping, hence also not to the
site-variability maps derived from them — while a variant whose allele
frequency is exactly `1/1000` is counted in the mapping selected by its
amino-acid change. -/
theorem c4_frequency_filter (m : Dict × Dict) (v : Variant)
    (pre post : List Variant) (han : 0 < v.an) :
    ((1 / 1000 : ℚ) < (v.ac : ℚ) / (v.an : ℚ) →
      count_variants (pre ++ v :: post) = count_variants (pre ++ post) ∧
      site_variability (count_variants (pre ++ v :: post)).1 =
        site_variability (count_variants (pre ++ post)).1 ∧
      site_variability (count_variants (pre ++ v :: post)).2 =
        site_variability (count_variants (pre ++ post)).2) ∧
    ((v.ac : ℚ) / (v.an : ℚ) = 1 / 1000 →
      (v.wt ≠ v.mt →
        dgetD (cvStep m v).1 v.pos = dgetD m.1 v.pos + 1 ∧ (cvStep m v).2 = m.2) ∧
      (v.wt = v.mt →
        dgetD (cvStep m v).2 v.pos = dgetD m.2 v.pos + 1 ∧ (cvStep m v).1 = m.1)) := by
  constructor
  · intro hf
    have h := count_variants_skip_of_filtered pre post v hf
    exact ⟨h, by rw [h], by rw [h]⟩
  · intro he
    have hne : ¬ ((1 / 1000 : ℚ) < (v.ac : ℚ) / (v.an : ℚ)) := by
      rw [he]
      exact lt_irrefl _
    have hstep : cvStep m v =
        if v.wt ≠ v.mt then (dincr m.1 v.pos, m.2) else (m.1, dincr m.2 v.pos) := by
      unfold cvStep
      rw [if_neg hne]
    constructor
    · intro hw
      rw [hstep, if_pos hw]
      exact ⟨dincr_getD_self m.1 v.pos, rfl⟩
    · intro hw
      have hnw : ¬ v.wt ≠ v.mt := by simp [hw]
      rw [hstep, if_neg hnw]
      exact ⟨dincr_getD_self m.2 v.pos, rfl⟩

theorem c4_frequency_filter_witness :
    count_variants ([] ++ (⟨'M', 3, 'K', 2, 1000⟩ : Variant) :: []) =
      count_variants ([] ++ []) ∧
    dgetD (cvStep ([], []) (⟨'M', 3, 'K', 1, 1000⟩ : Variant)).1 3 =
      dgetD ([] : Dict) 3 + 1 := by
  refine ⟨?_, ?_⟩
  · exact ((c4_frequency_filter ([], []) ⟨'M', 3, 'K', 2, 1000⟩ [] []
      (by norm_num)).1 (by norm_num)).1
  · exact (((c4_frequency_filter ([], []) ⟨'M', 3, 'K', 1, 1000⟩ [] []
      (by norm_num)).2 (by norm_num)).1 (by decide)).1

/-! ## C5: the count mappings partition the non-excluded variants -/

theorem count_variants_total_aux (l : List Variant) (m : Dict × Dict) :
    dtotal (l.foldl cvStep m).1 + dtotal (l.foldl cvStep m).2 =
      dtotal m.1 + dtotal m.2 + (keptVariants l).length := by
  induction l generalizing m with
  | nil => simp [keptVariants]
  | cons v rest ih =>
    rw [List.foldl_cons, ih]
    by_cases hf : (1 / 1000 : ℚ) < (v.ac : ℚ) / (v.an : ℚ)
    · have hk : keptVariants (v :: rest) = keptVariants rest := by
        simp [keptVariants, List.filter_cons, hf]
        simpa using hf
      rw [hk]
      unfold cvStep
      rw [if_pos hf]
    · have hk : keptVariants (v :: rest) = v :: keptVariants rest := by
        simp [keptVariants, List.filter_cons, hf]
        simpa using not_lt.mp hf
      rw [hk]
      unfold cvStep
      rw [if_neg hf]
      by_cases hw : v.wt = v.mt
      · have hnw : ¬ v.wt ≠ v.mt := by simp [hw]
        rw [if_neg hnw]
        simp only [dincr_total, List.length_cons]
        omega
      · rw [if_pos hw]
        simp only [dincr_total, List.length_cons]
        omega

/-- Claim C5: `count_variants` (transcript-centric driver) partitions its
non-excluded input: each variant kept by the frequency filter is tallied
at its parsed position in exactly one of the two mappings — the
missense mapping iff wild-type and mutant amino acids differ, otherwise
the synonymous mapping — so the values of the two mappings sum to the
number of non-excluded variants.  In the protein-centric driver
(`count_variants_sp`, no filter) the two mappings' values sum to the
length of the whole input list. -/
theorem c5_partition (l : List Variant) (han : ∀ v ∈ l, 0 < v.an) :
    (dtotal (count_variants l).1 + dtotal (count_variants l).2 =
      (keptVariants l).length) ∧
    (∀ v ∈ keptVariants l, ∀ m : Dict × Dict,
      (v.wt ≠ v.mt → cvStep m v = (dincr m.1 v.pos, m.2)) ∧
      (v.wt = v.mt → cvStep m v = (m.1, dincr m.2 v.pos))) ∧
    (dtotal (count_variants_sp l).1 + dtotal (count_variants_sp l).2 = l.length) := by
  refine ⟨?_, ?_, ?_⟩
  · have h := count_variants_total_aux l ([], [])
    simpa [count_variants, dtotal] using h
  · intro v hv m
    have hkept : ¬ ((1 / 1000 : ℚ) < (v.ac : ℚ) / (v.an : ℚ)) := by
      unfold keptVariants at hv
      have := List.of_mem_filter hv
      simpa using this
    refine ⟨fun hw => ?_, fun hw => ?_⟩
    · unfold cvStep
      rw [if_neg hkept, if_pos hw]
    · have hnw : ¬ v.wt ≠ v.mt := by simp [hw]
      unfold cvStep
      rw [if_neg hkept, if_neg hnw]
  · have aux : ∀ (l' : List Variant) (m : Dict × Dict),
        dtotal (l'.foldl cvStep_sp m).1 + dtotal (l'.foldl cvStep_sp m).2 =
          dtotal m.1 + dtotal m.2 + l'.length := by
      intro l'
      induction l' with
      | nil => simp
      | cons v rest ih =>
        intro m
        rw [List.foldl_cons, ih]
        by_cases hw : v.wt = v.mt
        · simp [cvStep_sp, hw, dincr_total]; ring
        · simp [cvStep_sp, hw, dincr_total]; ring
    have h := aux l ([], [])
    simpa [count_variants_sp, dtotal] using h

theorem c5_partition_witness :
    dtotal (count_variants
        [⟨'M', 1, 'K', 1, 1000⟩, ⟨'A', 2, 'A', 0, 10⟩, ⟨'C', 3, 'D', 50, 100⟩]).1 +
      dtotal (count_variants
        [⟨'M', 1, 'K', 1, 1000⟩, ⟨'A', 2, 'A', 0, 10⟩, ⟨'C', 3, 'D', 50, 100⟩]).2 =
      (keptVariants
        [⟨'M', 1, 'K', 1, 1000⟩, ⟨'A', 2, 'A', 0, 10⟩, ⟨'C', 3, 'D', 50, 100⟩]).length :=
  (c5_partition
    [⟨'M', 1, 'K', 1, 1000⟩, ⟨'A', 2, 'A', 0, 10⟩, ⟨'C', 3, 'D', 50, 100⟩]
    (by decide)).1

/-! ## C6: monotonicity of the permutation p-value -/

theorem filter_ge_length_antitone (l : List Nat) (a b : Nat) (hab : a ≤ b) :
    (l.filter (fun t => decide (b ≤ t))).length ≤
      (l.filter (fun t => decide (a ≤ t))).length := by
  induction l with
  | nil => simp
  | cons x rest ih =>
    rw [List.filter_cons, List.filter_cons]
    by_cases hb : b ≤ x
    · have ha : a ≤ x := le_trans hab hb
      simp [hb, ha]
      omega
    · by_cases ha : a ≤ x
      · simp [hb, ha]
        omega
      · simp [hb, ha]
        exact ih

/-- Claim C6 counterexample: the claim states that the p-value reported by the permutation
evaluation never decreases when the observed count is increased.  It
fails: the p-value is the upper-tail probability, so a larger observed
count can only shrink the set of trials with simulated total at least
the observed count.  Concretely, with the 2-trial matrix `[[5], [0]]`
and contact set `{1}`, the observed count 0 gives p-value 1, while the
larger observed count 1 gives p-value 1/2. -/
theorem c6_counterexample :
    permutation_p_value [[5], [0]] [1] 1 < permutation_p_value [[5], [0]] [1] 0 := by
  norm_num [permutation_p_value, List.filter]

/-- Claim C6 (amended): for a fixed permutation matrix and a fixed set
of contact positions, the p-value reported by the permutation
evaluation (the fraction of trials whose simulated contact-set total is
at least the observed count, floored at `1 / trial_count`) never
*increases* when the observed count is increased. -/
theorem c6_p_value_antitone (matrix : List (List Nat)) (positions : List Nat)
    (obs obs' : Nat) (h : obs ≤ obs') :
    permutation_p_value matrix positions obs' ≤
      permutation_p_value matrix positions obs := by
  unfold permutation_p_value
  rcases Nat.eq_zero_or_pos matrix.length with hn | hn
  · rw [List.length_eq_zero] at hn
    subst hn
    simp
  · apply max_le_max _ le_rfl
    have hc : (0 : ℚ) < (matrix.length : ℚ) := by exact_mod_cast hn
    rw [div_le_div_iff_of_pos_right hc]
    exact_mod_cast filter_ge_length_antitone
      (matrix.map (fun row => (positions.map (fun p => row.getD (p - 1) 0)).sum))
      obs obs' h

theorem c6_p_value_antitone_witness :
    permutation_p_value [[5], [0]] [1] 7 ≤ permutation_p_value [[5], [0]] [1] 2 :=
  c6_p_value_antitone [[5], [0]] [1] 2 7 (by decide)

/-! ## Lemmas about the `cosmis_sp.py` neighbor loop -/

theorem dgetD_dsetdefault_funext (d : Dict) (k : Nat) :
    dgetD (dsetdefault d k).2 = dgetD d :=
  funext (dsetdefault_getD d k)

theorem spNeighborLoop_ok_spec (nc : List (Nat × Nat)) (ns rt : List (ℚ × ℚ)) :
    ∀ (l : List Nat) (r : FullRecord) (d : Dicts) (r' : FullRecord) (d' : Dicts),
      spNeighborLoop nc ns rt l r d = (r', d', true) →
      r'.pos = r.pos ∧ r'.aa = r.aa ∧ r'.numContacts = r.numContacts ∧
      r'.misObs = r.misObs + (l.map (dgetD d.mis)).sum ∧
      r'.synObs = r.synObs + (l.map (dgetD d.syn)).sum ∧
      r'.misVarSites = r.misVarSites + (l.map (dgetD d.misVar)).sum ∧
      r'.synVarSites = r.synVarSites + (l.map (dgetD d.synVar)).sum ∧
      r'.misPoss = r.misPoss + (l.map (fun j => ((nc[j - 1]?.getD (0, 0))).1)).sum ∧
      r'.synPoss = r.synPoss + (l.map (fun j => ((nc[j - 1]?.getD (0, 0))).2)).sum ∧
      r'.misSites = r.misSites + (l.map (fun j => ((ns[j - 1]?.getD (0, 0))).1)).sum ∧
      r'.synSites = r.synSites + (l.map (fun j => ((ns[j - 1]?.getD (0, 0))).2)).sum ∧
      r'.synRate = r.synRate + (l.map (fun j => ((rt[j - 1]?.getD (0, 0))).1)).sum ∧
      r'.misRate = r.misRate + (l.map (fun j => ((rt[j - 1]?.getD (0, 0))).2)).sum := by
  intro l
  induction l with
  | nil =>
    intro r d r' d' h
    simp only [spNeighborLoop, Prod.mk.injEq] at h
    obtain ⟨hr, hd, -⟩ := h
    subst hr
    simp
  | cons j rest ih =>
    intro r d r' d' h
    simp only [spNeighborLoop] at h
    cases hc : nc[j - 1]? with
    | none => rw [hc] at h; simp at h
    | some c =>
      rw [hc] at h
      cases hu : rt[j - 1]? with
      | none => rw [hu] at h; simp at h
      | some u =>
        rw [hu] at h
        cases hs : ns[j - 1]? with
        | none => rw [hs] at h; simp at h
        | some s =>
          rw [hs] at h
          have spec := ih _ _ _ _ h
          simp only [dgetD_dsetdefault_funext] at spec
          obtain ⟨h1, h2, h3, h4, h5, h6, h7, h8, h9, h10, h11, h12, h13⟩ := spec
          refine ⟨by simpa using h1, by simpa using h2, by simpa using h3,
            ?_, ?_, ?_, ?_, ?_, ?_, ?_, ?_, ?_, ?_⟩
          · rw [h4]; simp [dsetdefault_fst, List.map_cons]; omega
          · rw [h5]; simp [dsetdefault_fst, List.map_cons]; omega
          · rw [h6]; simp [dsetdefault_fst, List.map_cons]; omega
          · rw [h7]; simp [dsetdefault_fst, List.map_cons]; omega
          · rw [h8]; simp [hc, List.map_cons]; omega
          · rw [h9]; simp [hc, List.map_cons]; omega
          · rw [h10]; simp [hs, List.map_cons]; ring
          · rw [h11]; simp [hs, List.map_cons]; ring
          · rw [h12]; simp [hu, List.map_cons]; ring
          · rw [h13]; simp [hu, List.map_cons]; ring

theorem spNeighborLoop_contains_mono (nc : List (Nat × Nat)) (ns rt : List (ℚ × ℚ)) :
    ∀ (l : List Nat) (r : FullRecord) (d : Dicts) (r' : FullRecord) (d' : Dicts)
      (ok : Bool), spNeighborLoop nc ns rt l r d = (r', d', ok) →
      ∀ k, (dcontains d.mis k = true → dcontains d'.mis k = true) ∧
        (dcontains d.syn k = true → dcontains d'.syn k = true) ∧
        (dcontains d.misVar k = true → dcontains d'.misVar k = true) ∧
        (dcontains d.synVar k = true → dcontains d'.synVar k = true) := by
  intro l
  induction l with
  | nil =>
    intro r d r' d' ok h
    simp only [spNeighborLoop, Prod.mk.injEq] at h
    obtain ⟨-, hd, -⟩ := h
    subst hd
    exact fun k => ⟨id, id, id, id⟩
  | cons j rest ih =>
    intro r d r' d' ok h
    simp only [spNeighborLoop] at h
    intro k
    cases hc : nc[j - 1]? with
    | none =>
      rw [hc] at h
      simp only [Prod.mk.injEq] at h
      obtain ⟨-, hd, -⟩ := h
      subst hd
      exact ⟨fun hk => dsetdefault_contains_mono _ _ _ hk,
        fun hk => dsetdefault_contains_mono _ _ _ hk,
        fun hk => dsetdefault_contains_mono _ _ _ hk,
        fun hk => dsetdefault_contains_mono _ _ _ hk⟩
    | some c =>
      rw [hc] at h
      cases hu : rt[j - 1]? with
      | none =>
        rw [hu] at h
        simp only [Prod.mk.injEq] at h
        obtain ⟨-, hd, -⟩ := h
        subst hd
        exact ⟨fun hk => dsetdefault_contains_mono _ _ _ hk,
          fun hk => dsetdefault_contains_mono _ _ _ hk,
          fun hk => dsetdefault_contains_mono _ _ _ hk,
          fun hk => dsetdefault_contains_mono _ _ _ hk⟩
      | some u =>
        rw [hu] at h
        cases hs : ns[j - 1]? with
        | none =>
          rw [hs] at h
          simp only [Prod.mk.injEq] at h
          obtain ⟨-, hd, -⟩ := h
          subst hd
          exact ⟨fun hk => dsetdefault_contains_mono _ _ _ hk,
            fun hk => dsetdefault_contains_mono _ _ _ hk,
            fun hk => dsetdefault_contains_mono _ _ _ hk,
            fun hk => dsetdefault_contains_mono _ _ _ hk⟩
        | some s =>
          rw [hs] at h
          have step := ih _ _ _ _ _ h k
          exact ⟨fun hk => step.1 (dsetdefault_contains_mono _ _ _ hk),
            fun hk => step.2.1 (dsetdefault_contains_mono _ _ _ hk),
            fun hk => step.2.2.1 (dsetdefault_contains_mono _ _ _ hk),
            fun hk => step.2.2.2 (dsetdefault_contains_mono _ _ _ hk)⟩

theorem spNeighborLoop_contains_mem (nc : List (Nat × Nat)) (ns rt : List (ℚ × ℚ)) :
    ∀ (l : List Nat) (r : FullRecord) (d : Dicts) (r' : FullRecord) (d' : Dicts),
      spNeighborLoop nc ns rt l r d = (r', d', true) →
      ∀ j ∈ l, dcontains d'.mis j = true ∧ dcontains d'.syn j = true ∧
        dcontains d'.misVar j = true ∧ dcontains d'.synVar j = true := by
  intro l
  induction l with
  | nil => intro r d r' d' h j hj; simp at hj
  | cons j0 rest ih =>
    intro r d r' d' h j hj
    simp only [spNeighborLoop] at h
    cases hc : nc[j0 - 1]? with
    | none => rw [hc] at h; simp at h
    | some c =>
      rw [hc] at h
      cases hu : rt[j0 - 1]? with
      | none => rw [hu] at h; simp at h
      | some u =>
        rw [hu] at h
        cases hs : ns[j0 - 1]? with
        | none => rw [hs] at h; simp at h
        | some s =>
          rw [hs] at h
          rcases List.mem_cons.mp hj with hj0 | hjrest
          · subst hj0
            have mono := spNeighborLoop_contains_mono nc ns rt _ _ _ _ _ _ h j
            exact ⟨mono.1 (dsetdefault_contains_self _ _),
              mono.2.1 (dsetdefault_contains_self _ _),
              mono.2.2.1 (dsetdefault_contains_self _ _),
              mono.2.2.2 (dsetdefault_contains_self _ _)⟩
          · exact ih _ _ _ _ h j hjrest

theorem spNeighborLoop_fails_iff (nc : List (Nat × Nat)) (ns rt : List (ℚ × ℚ)) :
    ∀ (l : List Nat) (r : FullRecord) (d : Dicts),
      (spNeighborLoop nc ns rt l r d).2.2 = false ↔
        ∃ j ∈ l, nc[j - 1]? = none ∨ rt[j - 1]? = none ∨ ns[j - 1]? = none := by
  intro l
  induction l with
  | nil => intro r d; simp [spNeighborLoop]
  | cons j0 rest ih =>
    intro r d
    simp only [spNeighborLoop]
    cases hc : nc[j0 - 1]? with
    | none =>
      simp only []
      constructor
      · intro _; exact ⟨j0, List.mem_cons_self _ _, Or.inl hc⟩
      · intro _; trivial
    | some c =>
      cases hu : rt[j0 - 1]? with
      | none =>
        simp only []
        constructor
        · intro _; exact ⟨j0, List.mem_cons_self _ _, Or.inr (Or.inl hu)⟩
        · intro _; trivial
      | some u =>
        cases hs : ns[j0 - 1]? with
        | none =>
          simp only []
          constructor
          · intro _; exact ⟨j0, List.mem_cons_self _ _, Or.inr (Or.inr hs)⟩
          · intro _; trivial
        | some s =>
          rw [ih]
          constructor
          · rintro ⟨j, hj, hor⟩
            exact ⟨j, List.mem_cons_of_mem _ hj, hor⟩
          · rintro ⟨j, hj, hor⟩
            rcases List.mem_cons.mp hj with hj0 | hjrest
            · subst hj0
              rcases hor with hx | hx | hx
              · rw [hx] at hc; cases hc
              · rw [hx] at hu; cases hu
              · rw [hx] at hs; cases hs
            · exact ⟨j, hjrest, hor⟩

/-! ## Inversion of one `cosmis_sp.py` outer-loop iteration -/

theorem spStep_emit_spec (ch : Nat → Option Char) (co : Nat → List Nat)
    (nc : List (Nat × Nat)) (ns rt : List (ℚ × ℚ)) (cds : List Char)
    (d : Dicts) (pos : Nat) (aa : Char) (r : FullRecord) (d' : Dicts)
    (h : spStep ch co nc ns rt cds d pos aa = (.emit r, d')) :
    ch pos = some aa ∧
    r.pos = pos ∧ r.aa = aa ∧ r.numContacts = (co pos).length + 1 ∧
    r.misObs = dgetD d.mis pos + ((co pos).map (dgetD d.mis)).sum ∧
    r.synObs = dgetD d.syn pos + ((co pos).map (dgetD d.syn)).sum ∧
    r.misVarSites = dgetD d.misVar pos + ((co pos).map (dgetD d.misVar)).sum ∧
    r.synVarSites = dgetD d.synVar pos + ((co pos).map (dgetD d.synVar)).sum ∧
    r.misPoss = (nc[pos - 1]?.getD (0, 0)).1 +
      ((co pos).map (fun j => (nc[j - 1]?.getD (0, 0)).1)).sum ∧
    r.synPoss = (nc[pos - 1]?.getD (0, 0)).2 +
      ((co pos).map (fun j => (nc[j - 1]?.getD (0, 0)).2)).sum ∧
    r.misSites = (ns[pos - 1]?.getD (0, 0)).1 +
      ((co pos).map (fun j => (ns[j - 1]?.getD (0, 0)).1)).sum ∧
    r.synSites = (ns[pos - 1]?.getD (0, 0)).2 +
      ((co pos).map (fun j => (ns[j - 1]?.getD (0, 0)).2)).sum ∧
    r.synRate = (rt[pos - 1]?.getD (0, 0)).1 +
      ((co pos).map (fun j => (rt[j - 1]?.getD (0, 0)).1)).sum ∧
    r.misRate = (rt[pos - 1]?.getD (0, 0)).2 +
      ((co pos).map (fun j => (rt[j - 1]?.getD (0, 0)).2)).sum ∧
    (dcontains d'.mis pos = true ∧ dcontains d'.syn pos = true ∧
      dcontains d'.misVar pos = true ∧ dcontains d'.synVar pos = true) ∧
    (∀ j ∈ co pos, dcontains d'.mis j = true ∧ dcontains d'.syn j = true ∧
      dcontains d'.misVar j = true ∧ dcontains d'.synVar j = true) := by
  unfold spStep at h
  cases hch : ch pos with
  | none => rw [hch] at h; simp at h
  | some pdbAa =>
    rw [hch] at h
    dsimp only [] at h
    by_cases haa : aa = pdbAa
    · rw [if_neg (by simpa using haa)] at h
      cases hs0 : ns[pos - 1]? with
      | none => rw [hs0] at h; simp at h
      | some s =>
        rw [hs0] at h
        dsimp only [] at h
        cases hc0 : nc[pos - 1]? with
        | none => rw [hc0] at h; simp at h
        | some c =>
          rw [hc0] at h
          cases hu0 : rt[pos - 1]? with
          | none => rw [hu0] at h; simp at h
          | some u =>
            rw [hu0] at h
            dsimp only [] at h
            rcases hnl : spNeighborLoop nc ns rt (co pos)
                { pos := pos, aa := aa, numContacts := (co pos).length + 1,
                  misVarSites := (dsetdefault d.misVar pos).1,
                  synVarSites := (dsetdefault d.synVar pos).1,
                  misObs := (dsetdefault d.mis pos).1,
                  synObs := (dsetdefault d.syn pos).1,
                  misPoss := c.1, synPoss := c.2, misSites := s.1, synSites := s.2,
                  synRate := u.1, misRate := u.2 }
                ⟨(dsetdefault d.mis pos).2, (dsetdefault d.syn pos).2,
                  (dsetdefault d.misVar pos).2, (dsetdefault d.synVar pos).2⟩
              with ⟨r1, d2, ok⟩
            rw [hnl] at h
            cases ok with
            | false => simp at h
            | true =>
              rw [if_pos rfl] at h
              by_cases hctx :
                  (get_codon_seq_context (co pos ++ [pos]) cds).length = 0
              · rw [if_pos hctx] at h; simp at h
              · rw [if_neg hctx] at h
                simp only [Prod.mk.injEq, SpStepOut.emit.injEq] at h
                obtain ⟨hr, hd⟩ := h
                subst hr
                subst hd
                have spec := spNeighborLoop_ok_spec nc ns rt _ _ _ _ _ hnl
                simp only [dgetD_dsetdefault_funext] at spec
                obtain ⟨h1, h2, h3, h4, h5, h6, h7, h8, h9, h10, h11, h12, h13⟩ := spec
                have hmem := spNeighborLoop_contains_mem nc ns rt _ _ _ _ _ hnl
                have hmono := spNeighborLoop_contains_mono nc ns rt _ _ _ _ _ _ hnl
                refine ⟨by rw [haa], by simpa using h1, by simpa using h2,
                  by simpa using h3, ?_, ?_, ?_, ?_, ?_, ?_, ?_, ?_, ?_, ?_, ?_, hmem⟩
                · rw [h4]; simp [dsetdefault_fst]
                · rw [h5]; simp [dsetdefault_fst]
                · rw [h6]; simp [dsetdefault_fst]
                · rw [h7]; simp [dsetdefault_fst]
                · rw [h8]; simp [hc0]
                · rw [h9]; simp [hc0]
                · rw [h10]; simp [hs0]
                · rw [h11]; simp [hs0]
                · rw [h12]; simp [hu0]
                · rw [h13]; simp [hu0]
                · exact ⟨(hmono pos).1 (dsetdefault_contains_self _ _),
                    (hmono pos).2.1 (dsetdefault_contains_self _ _),
                    (hmono pos).2.2.1 (dsetdefault_contains_self _ _),
                    (hmono pos).2.2.2 (dsetdefault_contains_self _ _)⟩
    · rw [if_pos (by simpa using haa)] at h
      simp at h

/-! ## Lemmas about the `cosmis.py` neighbor loop -/

theorem cosNeighborLoop_const (mq : Nat → Option Nat) (nc : List (Nat × Nat))
    (ns rt : List (ℚ × ℚ)) :
    ∀ (l : List Nat) (r : FullRecord) (d : Dicts),
      (cosNeighborLoop mq nc ns rt l r d).1.pos = r.pos ∧
      (cosNeighborLoop mq nc ns rt l r d).1.aa = r.aa ∧
      (cosNeighborLoop mq nc ns rt l r d).1.numContacts = r.numContacts := by
  intro l
  induction l with
  | nil => intro r d; simp [cosNeighborLoop]
  | cons j rest ih =>
    intro r d
    cases hmq : mq j with
    | none =>
      simp only [cosNeighborLoop, hmq]
      exact ih r d
    | some q =>
      cases hc : nc[q - 1]? with
      | none =>
        simp only [cosNeighborLoop, hmq, hc]
        simpa using ih _ _
      | some c =>
        cases hs : ns[q - 1]? with
        | none =>
          simp only [cosNeighborLoop, hmq, hc, hs]
          simpa using ih _ _
        | some s =>
          cases hu : rt[q - 1]? with
          | none =>
            simp only [cosNeighborLoop, hmq, hc, hs, hu]
            simpa using ih _ _
          | some u =>
            simp only [cosNeighborLoop, hmq, hc, hs, hu]
            simpa using ih _ _

theorem cosNeighborLoop_spec (mq : Nat → Option Nat) (nc : List (Nat × Nat))
    (ns rt : List (ℚ × ℚ)) :
    ∀ (l : List Nat) (r : FullRecord) (d : Dicts),
      (∀ j ∈ l, ∀ q, mq j = some q →
        nc[q - 1]?.isSome = true ∧ ns[q - 1]?.isSome = true ∧
        rt[q - 1]?.isSome = true) →
      (cosNeighborLoop mq nc ns rt l r d).1.misObs =
        r.misObs + ((l.filterMap mq).map (dgetD d.mis)).sum ∧
      (cosNeighborLoop mq nc ns rt l r d).1.synObs =
        r.synObs + ((l.filterMap mq).map (dgetD d.syn)).sum ∧
      (cosNeighborLoop mq nc ns rt l r d).1.misVarSites =
        r.misVarSites + ((l.filterMap mq).map (dgetD d.misVar)).sum ∧
      (cosNeighborLoop mq nc ns rt l r d).1.synVarSites =
        r.synVarSites + ((l.filterMap mq).map (dgetD d.synVar)).sum ∧
      (cosNeighborLoop mq nc ns rt l r d).1.misPoss =
        r.misPoss + ((l.filterMap mq).map (fun q => (nc[q - 1]?.getD (0, 0)).1)).sum ∧
      (cosNeighborLoop mq nc ns rt l r d).1.synPoss =
        r.synPoss + ((l.filterMap mq).map (fun q => (nc[q - 1]?.getD (0, 0)).2)).sum ∧
      (cosNeighborLoop mq nc ns rt l r d).1.misSites =
        r.misSites + ((l.filterMap mq).map (fun q => (ns[q - 1]?.getD (0, 0)).1)).sum ∧
      (cosNeighborLoop mq nc ns rt l r d).1.synSites =
        r.synSites + ((l.filterMap mq).map (fun q => (ns[q - 1]?.getD (0, 0)).2)).sum ∧
      (cosNeighborLoop mq nc ns rt l r d).1.synRate =
        r.synRate + ((l.filterMap mq).map (fun q => (rt[q - 1]?.getD (0, 0)).1)).sum ∧
      (cosNeighborLoop mq nc ns rt l r d).1.misRate =
        r.misRate + ((l.filterMap mq).map (fun q => (rt[q - 1]?.getD (0, 0)).2)).sum := by
  intro l
  induction l with
  | nil => intro r d hrange; simp [cosNeighborLoop]
  | cons j rest ih =>
    intro r d hrange
    have hrest : ∀ j ∈ rest, ∀ q, mq j = some q →
        nc[q - 1]?.isSome = true ∧ ns[q - 1]?.isSome = true ∧
        rt[q - 1]?.isSome = true :=
      fun j0 hj0 q hq => hrange j0 (List.mem_cons_of_mem _ hj0) q hq
    cases hmq : mq j with
    | none =>
      simp only [cosNeighborLoop, hmq, List.filterMap_cons_none hmq]
      exact ih r d hrest
    | some q =>
      have hq := hrange j (List.mem_cons_self _ _) q hmq
      rcases Option.isSome_iff_exists.mp hq.1 with ⟨c, hc⟩
      rcases Option.isSome_iff_exists.mp hq.2.1 with ⟨s, hs⟩
      rcases Option.isSome_iff_exists.mp hq.2.2 with ⟨u, hu⟩
      simp only [cosNeighborLoop, hmq, hc, hs, hu, List.filterMap_cons_some hmq]
      have spec := ih
        { r with
          misObs := r.misObs + (dsetdefault d.mis q).1,
          synObs := r.synObs + (dsetdefault d.syn q).1,
          misVarSites := r.misVarSites + (dsetdefault d.misVar q).1,
          synVarSites := r.synVarSites + (dsetdefault d.synVar q).1,
          misPoss := r.misPoss + c.1, synPoss := r.synPoss + c.2,
          misSites := r.misSites + s.1, synSites := r.synSites + s.2,
          synRate := r.synRate + u.1, misRate := r.misRate + u.2 }
        (⟨(dsetdefault d.mis q).2, (dsetdefault d.syn q).2,
          (dsetdefault d.misVar q).2, (dsetdefault d.synVar q).2⟩ : Dicts) hrest
      simp only [dgetD_dsetdefault_funext] at spec
      obtain ⟨h1, h2, h3, h4, h5, h6, h7, h8, h9, h10⟩ := spec
      refine ⟨?_, ?_, ?_, ?_, ?_, ?_, ?_, ?_, ?_, ?_⟩
      · rw [h1]; simp [dsetdefault_fst, List.map_cons]; omega
      · rw [h2]; simp [dsetdefault_fst, List.map_cons]; omega
      · rw [h3]; simp [dsetdefault_fst, List.map_cons]; omega
      · rw [h4]; simp [dsetdefault_fst, List.map_cons]; omega
      · rw [h5]; simp [hc, List.map_cons]; omega
      · rw [h6]; simp [hc, List.map_cons]; omega
      · rw [h7]; simp [hs, List.map_cons]; ring
      · rw [h8]; simp [hs, List.map_cons]; ring
      · rw [h9]; simp [hu, List.map_cons]; ring
      · rw [h10]; simp [hu, List.map_cons]; ring

theorem cosNeighborLoop_out_of_range_step (mq : Nat → Option Nat)
    (nc : List (Nat × Nat)) (ns rt : List (ℚ × ℚ)) (j : Nat) (rest : List Nat)
    (r : FullRecord) (d : Dicts) (q : Nat) (hq : mq j = some q)
    (hnc : nc[q - 1]? = none) :
    cosNeighborLoop mq nc ns rt (j :: rest) r d =
      cosNeighborLoop mq nc ns rt rest
        { r with
          misObs := r.misObs + dgetD d.mis q,
          synObs := r.synObs + dgetD d.syn q,
          misVarSites := r.misVarSites + dgetD d.misVar q,
          synVarSites := r.synVarSites + dgetD d.synVar q }
        ⟨(dsetdefault d.mis q).2, (dsetdefault d.syn q).2,
          (dsetdefault d.misVar q).2, (dsetdefault d.synVar q).2⟩ := by
  simp only [cosNeighborLoop, hq, hnc, dsetdefault_fst]

theorem cosNeighborLoop_contains_mono (mq : Nat → Option Nat)
    (nc : List (Nat × Nat)) (ns rt : List (ℚ × ℚ)) :
    ∀ (l : List Nat) (r : FullRecord) (d : Dicts) (k : Nat),
      (dcontains d.mis k = true →
        dcontains (cosNeighborLoop mq nc ns rt l r d).2.mis k = true) ∧
      (dcontains d.syn k = true →
        dcontains (cosNeighborLoop mq nc ns rt l r d).2.syn k = true) ∧
      (dcontains d.misVar k = true →
        dcontains (cosNeighborLoop mq nc ns rt l r d).2.misVar k = true) ∧
      (dcontains d.synVar k = true →
        dcontains (cosNeighborLoop mq nc ns rt l r d).2.synVar k = true) := by
  intro l
  induction l with
  | nil => intro r d k; simp only [cosNeighborLoop]; exact ⟨id, id, id, id⟩
  | cons j rest ih =>
    intro r d k
    cases hmq : mq j with
    | none =>
      simp only [cosNeighborLoop, hmq]
      exact ih r d k
    | some q =>
      have base : ∀ (r' : FullRecord),
          (dcontains d.mis k = true →
            dcontains (cosNeighborLoop mq nc ns rt rest r'
              ⟨(dsetdefault d.mis q).2, (dsetdefault d.syn q).2,
                (dsetdefault d.misVar q).2, (dsetdefault d.synVar q).2⟩).2.mis k = true) ∧
          (dcontains d.syn k = true →
            dcontains (cosNeighborLoop mq nc ns rt rest r'
              ⟨(dsetdefault d.mis q).2, (dsetdefault d.syn q).2,
                (dsetdefault d.misVar q).2, (dsetdefault d.synVar q).2⟩).2.syn k = true) ∧
          (dcontains d.misVar k = true →
            dcontains (cosNeighborLoop mq nc ns rt rest r'
              ⟨(dsetdefault d.mis q).2, (dsetdefault d.syn q).2,
                (dsetdefault d.misVar q).2, (dsetdefault d.synVar q).2⟩).2.misVar k = true) ∧
          (dcontains d.synVar k = true →
            dcontains (cosNeighborLoop mq nc ns rt rest r'
              ⟨(dsetdefault d.mis q).2, (dsetdefault d.syn q).2,
                (dsetdefault d.misVar q).2, (dsetdefault d.synVar q).2⟩).2.synVar k = true) := by
        intro r'
        have step := ih r'
          (⟨(dsetdefault d.mis q).2, (dsetdefault d.syn q).2,
            (dsetdefault d.misVar q).2, (dsetdefault d.synVar q).2⟩ : Dicts) k
        exact ⟨fun hk => step.1 (dsetdefault_contains_mono _ _ _ hk),
          fun hk => step.2.1 (dsetdefault_contains_mono _ _ _ hk),
          fun hk => step.2.2.1 (dsetdefault_contains_mono _ _ _ hk),
          fun hk => step.2.2.2 (dsetdefault_contains_mono _ _ _ hk)⟩
      cases hc : nc[q - 1]? with
      | none =>
        simp only [cosNeighborLoop, hmq, hc]
        exact base _
      | some c =>
        cases hs : ns[q - 1]? with
        | none =>
          simp only [cosNeighborLoop, hmq, hc, hs]
          exact base _
        | some s =>
          cases hu : rt[q - 1]? with
          | none =>
            simp only [cosNeighborLoop, hmq, hc, hs, hu]
            exact base _
          | some u =>
            simp only [cosNeighborLoop, hmq, hc, hs, hu]
            exact base _

theorem cosNeighborLoop_contains_mem (mq : Nat → Option Nat)
    (nc : List (Nat × Nat)) (ns rt : List (ℚ × ℚ)) :
    ∀ (l : List Nat) (r : FullRecord) (d : Dicts),
      ∀ q ∈ l.filterMap mq,
        dcontains (cosNeighborLoop mq nc ns rt l r d).2.mis q = true ∧
        dcontains (cosNeighborLoop mq nc ns rt l r d).2.syn q = true ∧
        dcontains (cosNeighborLoop mq nc ns rt l r d).2.misVar q = true ∧
        dcontains (cosNeighborLoop mq nc ns rt l r d).2.synVar q = true := by
  intro l
  induction l with
  | nil => intro r d q hq; simp at hq
  | cons j rest ih =>
    intro r d q hq
    cases hmq : mq j with
    | none =>
      rw [List.filterMap_cons_none hmq] at hq
      simp only [cosNeighborLoop, hmq]
      exact ih r d q hq
    | some q0 =>
      rw [List.filterMap_cons_some hmq] at hq
      have self : ∀ (r' : FullRecord),
          dcontains (cosNeighborLoop mq nc ns rt rest r'
            ⟨(dsetdefault d.mis q0).2, (dsetdefault d.syn q0).2,
              (dsetdefault d.misVar q0).2, (dsetdefault d.synVar q0).2⟩).2.mis
            q0 = true ∧
          dcontains (cosNeighborLoop mq nc ns rt rest r'
            ⟨(dsetdefault d.mis q0).2, (dsetdefault d.syn q0).2,
              (dsetdefault d.misVar q0).2, (dsetdefault d.synVar q0).2⟩).2.syn
            q0 = true ∧
          dcontains (cosNeighborLoop mq nc ns rt rest r'
            ⟨(dsetdefault d.mis q0).2, (dsetdefault d.syn q0).2,
              (dsetdefault d.misVar q0).2,
              (dsetdefault d.synVar q0).2⟩).2.misVar q0 = true ∧
          dcontains (cosNeighborLoop mq nc ns rt rest r'
            ⟨(dsetdefault d.mis q0).2, (dsetdefault d.syn q0).2,
              (dsetdefault d.misVar q0).2,
              (dsetdefault d.synVar q0).2⟩).2.synVar q0 = true := by
        intro r'
        have mono := cosNeighborLoop_contains_mono mq nc ns rt rest r'
          (⟨(dsetdefault d.mis q0).2, (dsetdefault d.syn q0).2,
            (dsetdefault d.misVar q0).2, (dsetdefault d.synVar q0).2⟩ : Dicts) q0
        exact ⟨mono.1 (dsetdefault_contains_self _ _),
          mono.2.1 (dsetdefault_contains_self _ _),
          mono.2.2.1 (dsetdefault_contains_self _ _),
          mono.2.2.2 (dsetdefault_contains_self _ _)⟩
      rcases List.mem_cons.mp hq with hq0 | hqrest
      · subst hq0
        cases hc : nc[q - 1]? with
        | none =>
          simp only [cosNeighborLoop, hmq, hc]
          exact self _
        | some c =>
          cases hs : ns[q - 1]? with
          | none =>
            simp only [cosNeighborLoop, hmq, hc, hs]
            exact self _
          | some s =>
            cases hu : rt[q - 1]? with
            | none =>
              simp only [cosNeighborLoop, hmq, hc, hs, hu]
              exact self _
            | some u =>
              simp only [cosNeighborLoop, hmq, hc, hs, hu]
              exact self _
      · cases hc : nc[q0 - 1]? with
        | none =>
          simp only [cosNeighborLoop, hmq, hc]
          exact ih _ _ q hqrest
        | some c =>
          cases hs : ns[q0 - 1]? with
          | none =>
            simp only [cosNeighborLoop, hmq, hc, hs]
            exact ih _ _ q hqrest
          | some s =>
            cases hu : rt[q0 - 1]? with
            | none =>
              simp only [cosNeighborLoop, hmq, hc, hs, hu]
              exact ih _ _ q hqrest
            | some u =>
              simp only [cosNeighborLoop, hmq, hc, hs, hu]
              exact ih _ _ q hqrest

/-! ## Inversion of one `cosmis.py` outer-loop iteration -/

theorem cosStep_nan_unmapped (mp : Nat → Option Nat) (cr : Nat → Option Char)
    (co : Nat → List Nat) (mq : Nat → Option Nat) (nc : List (Nat × Nat))
    (ns rt : List (ℚ × ℚ)) (ph xs : List ℚ) (cds : List Char) (d : Dicts)
    (i : Nat) (a : Char) (hmp : mp i = none) :
    cosStep mp cr co mq nc ns rt ph xs cds d i a = (.row (.nanRow i a), d) := by
  unfold cosStep
  rw [hmp]

theorem cosStep_nan_missing (mp : Nat → Option Nat) (cr : Nat → Option Char)
    (co : Nat → List Nat) (mq : Nat → Option Nat) (nc : List (Nat × Nat))
    (ns rt : List (ℚ × ℚ)) (ph xs : List ℚ) (cds : List Char) (d : Dicts)
    (i : Nat) (a : Char) (pp : Nat) (hmp : mp i = some pp)
    (hcr : cr pp = none) :
    cosStep mp cr co mq nc ns rt ph xs cds d i a = (.row (.nanRow i a), d) := by
  unfold cosStep
  rw [hmp]
  dsimp only []
  rw [hcr]

theorem cosStep_mismatch_row (mp : Nat → Option Nat) (cr : Nat → Option Char)
    (co : Nat → List Nat) (mq : Nat → Option Nat) (nc : List (Nat × Nat))
    (ns rt : List (ℚ × ℚ)) (ph xs : List ℚ) (cds : List Char) (d : Dicts)
    (i : Nat) (a : Char) (pp : Nat) (b : Char) (hmp : mp i = some pp)
    (hcr : cr pp = some b) (hab : a ≠ b) :
    cosStep mp cr co mq nc ns rt ph xs cds d i a =
      (.row (.mismatchRow i a pp b), d) := by
  unfold cosStep
  rw [hmp]
  dsimp only []
  rw [hcr]
  dsimp only []
  rw [if_pos (by simpa using hab)]

theorem cosStep_fullRow_basic (mp : Nat → Option Nat) (cr : Nat → Option Char)
    (co : Nat → List Nat) (mq : Nat → Option Nat) (nc : List (Nat × Nat))
    (ns rt : List (ℚ × ℚ)) (ph xs : List ℚ) (cds : List Char) (d : Dicts)
    (i : Nat) (a : Char) (r : FullRecord) (d' : Dicts)
    (h : cosStep mp cr co mq nc ns rt ph xs cds d i a = (.row (.fullRow r), d')) :
    ∃ pp, mp i = some pp ∧ cr pp = some a ∧
      r.pos = i ∧ r.aa = a ∧ r.numContacts = (co pp).length + 1 ∧
      (dcontains d'.mis i = true ∧ dcontains d'.syn i = true ∧
        dcontains d'.misVar i = true ∧ dcontains d'.synVar i = true) ∧
      (∀ q ∈ (co pp).filterMap mq,
        dcontains d'.mis q = true ∧ dcontains d'.syn q = true ∧
        dcontains d'.misVar q = true ∧ dcontains d'.synVar q = true) := by
  unfold cosStep at h
  cases hmp : mp i with
  | none => rw [hmp] at h; simp at h
  | some pp =>
    rw [hmp] at h
    dsimp only [] at h
    cases hcr : cr pp with
    | none => rw [hcr] at h; simp at h
    | some pdbAa =>
      rw [hcr] at h
      dsimp only [] at h
      by_cases haa : a = pdbAa
      · rw [if_neg (by simpa using haa)] at h
        cases hc0 : nc[i - 1]? with
        | none => rw [hc0] at h; simp at h
        | some c =>
          rw [hc0] at h
          cases hs0 : ns[i - 1]? with
          | none => rw [hs0] at h; simp at h
          | some s =>
            rw [hs0] at h
            cases hu0 : rt[i - 1]? with
            | none => rw [hu0] at h; simp at h
            | some u =>
              rw [hu0] at h
              cases hp0 : ph[i - 1]? with
              | none => rw [hp0] at h; simp at h
              | some p0 =>
                rw [hp0] at h
                dsimp only [] at h
                cases hx0 : xs[i - 1]? with
                | none => rw [hx0] at h; simp at h
                | some x0 =>
                  rw [hx0] at h
                  dsimp only [] at h
                  by_cases hctx :
                      (get_codon_seq_context (co pp ++ [i]) cds).length = 0
                  · rw [if_pos hctx] at h; simp at h
                  · rw [if_neg hctx] at h
                    by_cases hemp : (co pp).isEmpty
                    · rw [if_pos hemp] at h; simp at h
                    · rw [if_neg hemp] at h
                      rcases hnl : cosNeighborLoop mq nc ns rt (co pp)
                          { pos := i, aa := a, numContacts := (co pp).length + 1,
                            misVarSites := (dsetdefault d.misVar i).1,
                            synVarSites := (dsetdefault d.synVar i).1,
                            misObs := (dsetdefault d.mis i).1,
                            synObs := (dsetdefault d.syn i).1,
                            misPoss := c.1, synPoss := c.2,
                            misSites := s.1, synSites := s.2,
                            synRate := u.1, misRate := u.2 }
                          ⟨(dsetdefault d.mis i).2, (dsetdefault d.syn i).2,
                            (dsetdefault d.misVar i).2, (dsetdefault d.synVar i).2⟩
                        with ⟨r1, d2⟩
                      rw [hnl] at h
                      simp only [Prod.mk.injEq, CosStepOut.row.injEq,
                        CosRow.fullRow.injEq] at h
                      obtain ⟨hr, hd⟩ := h
                      subst hr
                      subst hd
                      have hconst := cosNeighborLoop_const mq nc ns rt (co pp)
                        { pos := i, aa := a, numContacts := (co pp).length + 1,
                          misVarSites := (dsetdefault d.misVar i).1,
                          synVarSites := (dsetdefault d.synVar i).1,
                          misObs := (dsetdefault d.mis i).1,
                          synObs := (dsetdefault d.syn i).1,
                          misPoss := c.1, synPoss := c.2,
                          misSites := s.1, synSites := s.2,
                          synRate := u.1, misRate := u.2 }
                        (⟨(dsetdefault d.mis i).2, (dsetdefault d.syn i).2,
                          (dsetdefault d.misVar i).2,
                          (dsetdefault d.synVar i).2⟩ : Dicts)
                      rw [hnl] at hconst
                      have hmono := cosNeighborLoop_contains_mono mq nc ns rt (co pp)
                        { pos := i, aa := a, numContacts := (co pp).length + 1,
                          misVarSites := (dsetdefault d.misVar i).1,
                          synVarSites := (dsetdefault d.synVar i).1,
                          misObs := (dsetdefault d.mis i).1,
                          synObs := (dsetdefault d.syn i).1,
                          misPoss := c.1, synPoss := c.2,
                          misSites := s.1, synSites := s.2,
                          synRate := u.1, misRate := u.2 }
                        (⟨(dsetdefault d.mis i).2, (dsetdefault d.syn i).2,
                          (dsetdefault d.misVar i).2,
                          (dsetdefault d.synVar i).2⟩ : Dicts)
                      have hmem := cosNeighborLoop_contains_mem mq nc ns rt (co pp)
                        { pos := i, aa := a, numContacts := (co pp).length + 1,
                          misVarSites := (dsetdefault d.misVar i).1,
                          synVarSites := (dsetdefault d.synVar i).1,
                          misObs := (dsetdefault d.mis i).1,
                          synObs := (dsetdefault d.syn i).1,
                          misPoss := c.1, synPoss := c.2,
                          misSites := s.1, synSites := s.2,
                          synRate := u.1, misRate := u.2 }
                        (⟨(dsetdefault d.mis i).2, (dsetdefault d.syn i).2,
                          (dsetdefault d.misVar i).2,
                          (dsetdefault d.synVar i).2⟩ : Dicts)
                      refine ⟨pp, rfl, by rw [hcr, haa], ?_, ?_, ?_, ?_, ?_⟩
                      · simpa using hconst.1
                      · simpa using hconst.2.1
                      · simpa using hconst.2.2
                      · refine ⟨?_, ?_, ?_, ?_⟩
                        · have := (hmono i).1 (dsetdefault_contains_self d.mis i)
                          rw [hnl] at this; exact this
                        · have := (hmono i).2.1 (dsetdefault_contains_self d.syn i)
                          rw [hnl] at this; exact this
                        · have := (hmono i).2.2.1 (dsetdefault_contains_self d.misVar i)
                          rw [hnl] at this; exact this
                        · have := (hmono i).2.2.2 (dsetdefault_contains_self d.synVar i)
                          rw [hnl] at this; exact this
                      · intro q hq
                        have := hmem q hq
                        rw [hnl] at this
                        exact this
      · rw [if_pos (by simpa using haa)] at h
        simp at h

theorem cosStep_fullRow_sums (mp : Nat → Option Nat) (cr : Nat → Option Char)
    (co : Nat → List Nat) (mq : Nat → Option Nat) (nc : List (Nat × Nat))
    (ns rt : List (ℚ × ℚ)) (ph xs : List ℚ) (cds : List Char) (d : Dicts)
    (i : Nat) (a : Char) (r : FullRecord) (d' : Dicts) (pp : Nat)
    (hmp : mp i = some pp)
    (hrange : ∀ j ∈ co pp, ∀ q, mq j = some q →
      nc[q - 1]?.isSome = true ∧ ns[q - 1]?.isSome = true ∧
      rt[q - 1]?.isSome = true)
    (h : cosStep mp cr co mq nc ns rt ph xs cds d i a = (.row (.fullRow r), d')) :
    r.misObs = dgetD d.mis i + (((co pp).filterMap mq).map (dgetD d.mis)).sum ∧
    r.synObs = dgetD d.syn i + (((co pp).filterMap mq).map (dgetD d.syn)).sum ∧
    r.misVarSites =
      dgetD d.misVar i + (((co pp).filterMap mq).map (dgetD d.misVar)).sum ∧
    r.synVarSites =
      dgetD d.synVar i + (((co pp).filterMap mq).map (dgetD d.synVar)).sum ∧
    r.misPoss = (nc[i - 1]?.getD (0, 0)).1 +
      (((co pp).filterMap mq).map (fun q => (nc[q - 1]?.getD (0, 0)).1)).sum ∧
    r.synPoss = (nc[i - 1]?.getD (0, 0)).2 +
      (((co pp).filterMap mq).map (fun q => (nc[q - 1]?.getD (0, 0)).2)).sum ∧
    r.misSites = (ns[i - 1]?.getD (0, 0)).1 +
      (((co pp).filterMap mq).map (fun q => (ns[q - 1]?.getD (0, 0)).1)).sum ∧
    r.synSites = (ns[i - 1]?.getD (0, 0)).2 +
      (((co pp).filterMap mq).map (fun q => (ns[q - 1]?.getD (0, 0)).2)).sum ∧
    r.synRate = (rt[i - 1]?.getD (0, 0)).1 +
      (((co pp).filterMap mq).map (fun q => (rt[q - 1]?.getD (0, 0)).1)).sum ∧
    r.misRate = (rt[i - 1]?.getD (0, 0)).2 +
      (((co pp).filterMap mq).map (fun q => (rt[q - 1]?.getD (0, 0)).2)).sum := by
  unfold cosStep at h
  rw [hmp] at h
  dsimp only [] at h
  cases hcr : cr pp with
  | none => rw [hcr] at h; simp at h
  | some pdbAa =>
    rw [hcr] at h
    dsimp only [] at h
    by_cases haa : a = pdbAa
    · rw [if_neg (by simpa using haa)] at h
      cases hc0 : nc[i - 1]? with
      | none => rw [hc0] at h; simp at h
      | some c =>
        rw [hc0] at h
        cases hs0 : ns[i - 1]? with
        | none => rw [hs0] at h; simp at h
        | some s =>
          rw [hs0] at h
          cases hu0 : rt[i - 1]? with
          | none => rw [hu0] at h; simp at h
          | some u =>
            rw [hu0] at h
            cases hp0 : ph[i - 1]? with
            | none => rw [hp0] at h; simp at h
            | some p0 =>
              rw [hp0] at h
              dsimp only [] at h
              cases hx0 : xs[i - 1]? with
              | none => rw [hx0] at h; simp at h
              | some x0 =>
                rw [hx0] at h
                dsimp only [] at h
                by_cases hctx :
                    (get_codon_seq_context (co pp ++ [i]) cds).length = 0
                · rw [if_pos hctx] at h; simp at h
                · rw [if_neg hctx] at h
                  by_cases hemp : (co pp).isEmpty
                  · rw [if_pos hemp] at h; simp at h
                  · rw [if_neg hemp] at h
                    rcases hnl : cosNeighborLoop mq nc ns rt (co pp)
                        { pos := i, aa := a, numContacts := (co pp).length + 1,
                          misVarSites := (dsetdefault d.misVar i).1,
                          synVarSites := (dsetdefault d.synVar i).1,
                          misObs := (dsetdefault d.mis i).1,
                          synObs := (dsetdefault d.syn i).1,
                          misPoss := c.1, synPoss := c.2,
                          misSites := s.1, synSites := s.2,
                          synRate := u.1, misRate := u.2 }
                        ⟨(dsetdefault d.mis i).2, (dsetdefault d.syn i).2,
                          (dsetdefault d.misVar i).2, (dsetdefault d.synVar i).2⟩
                      with ⟨r1, d2⟩
                    rw [hnl] at h
                    simp only [Prod.mk.injEq, CosStepOut.row.injEq,
                      CosRow.fullRow.injEq] at h
                    obtain ⟨hr, hd⟩ := h
                    subst hr
                    subst hd
                    have spec := cosNeighborLoop_spec mq nc ns rt (co pp)
                        { pos := i, aa := a, numContacts := (co pp).length + 1,
                          misVarSites := (dsetdefault d.misVar i).1,
                          synVarSites := (dsetdefault d.synVar i).1,
                          misObs := (dsetdefault d.mis i).1,
                          synObs := (dsetdefault d.syn i).1,
                          misPoss := c.1, synPoss := c.2,
                          misSites := s.1, synSites := s.2,
                          synRate := u.1, misRate := u.2 }
                        (⟨(dsetdefault d.mis i).2, (dsetdefault d.syn i).2,
                          (dsetdefault d.misVar i).2,
                          (dsetdefault d.synVar i).2⟩ : Dicts) hrange
                    rw [hnl] at spec
                    simp only [dgetD_dsetdefault_funext] at spec
                    obtain ⟨h1, h2, h3, h4, h5, h6, h7, h8, h9, h10⟩ := spec
                    refine ⟨?_, ?_, ?_, ?_, ?_, ?_, ?_, ?_, ?_, ?_⟩
                    · rw [h1]; simp [dsetdefault_fst]
                    · rw [h2]; simp [dsetdefault_fst]
                    · rw [h3]; simp [dsetdefault_fst]
                    · rw [h4]; simp [dsetdefault_fst]
                    · rw [h5]; simp [hc0]
                    · rw [h6]; simp [hc0]
                    · rw [h7]; simp [hs0]
                    · rw [h8]; simp [hs0]
                    · rw [h9]; simp [hu0]
                    · rw [h10]; simp [hu0]
    · rw [if_pos (by simpa using haa)] at h
      simp at h

/-! ## Dictionary-key monotonicity through the drivers -/

theorem spStep_contains_mono (ch : Nat → Option Char) (co : Nat → List Nat)
    (nc : List (Nat × Nat)) (ns rt : List (ℚ × ℚ)) (cds : List Char)
    (d : Dicts) (pos : Nat) (aa : Char) (out : SpStepOut) (d' : Dicts)
    (h : spStep ch co nc ns rt cds d pos aa = (out, d')) (k : Nat) :
    (dcontains d.mis k = true → dcontains d'.mis k = true) ∧
    (dcontains d.syn k = true → dcontains d'.syn k = true) ∧
    (dcontains d.misVar k = true → dcontains d'.misVar k = true) ∧
    (dcontains d.synVar k = true → dcontains d'.synVar k = true) := by
  unfold spStep at h
  cases hch : ch pos with
  | none =>
    rw [hch] at h
    simp only [Prod.mk.injEq] at h
    obtain ⟨-, hd⟩ := h
    subst hd
    exact ⟨id, id, id, id⟩
  | some pdbAa =>
    rw [hch] at h
    dsimp only [] at h
    by_cases haa : aa = pdbAa
    · rw [if_neg (by simpa using haa)] at h
      cases hs0 : ns[pos - 1]? with
      | none =>
        rw [hs0] at h
        simp only [Prod.mk.injEq] at h
        obtain ⟨-, hd⟩ := h
        subst hd
        exact ⟨id, id, fun hk => dsetdefault_contains_mono _ _ _ hk, id⟩
      | some s =>
        rw [hs0] at h
        dsimp only [] at h
        cases hc0 : nc[pos - 1]? with
        | none =>
          rw [hc0] at h
          simp only [Prod.mk.injEq] at h
          obtain ⟨-, hd⟩ := h
          subst hd
          exact ⟨fun hk => dsetdefault_contains_mono _ _ _ hk,
            fun hk => dsetdefault_contains_mono _ _ _ hk,
            fun hk => dsetdefault_contains_mono _ _ _ hk,
            fun hk => dsetdefault_contains_mono _ _ _ hk⟩
        | some c =>
          rw [hc0] at h
          cases hu0 : rt[pos - 1]? with
          | none =>
            rw [hu0] at h
            simp only [Prod.mk.injEq] at h
            obtain ⟨-, hd⟩ := h
            subst hd
            exact ⟨fun hk => dsetdefault_contains_mono _ _ _ hk,
              fun hk => dsetdefault_contains_mono _ _ _ hk,
              fun hk => dsetdefault_contains_mono _ _ _ hk,
              fun hk => dsetdefault_contains_mono _ _ _ hk⟩
          | some u =>
            rw [hu0] at h
            dsimp only [] at h
            rcases hnl : spNeighborLoop nc ns rt (co pos)
                { pos := pos, aa := aa, numContacts := (co pos).length + 1,
                  misVarSites := (dsetdefault d.misVar pos).1,
                  synVarSites := (dsetdefault d.synVar pos).1,
                  misObs := (dsetdefault d.mis pos).1,
                  synObs := (dsetdefault d.syn pos).1,
                  misPoss := c.1, synPoss := c.2, misSites := s.1, synSites := s.2,
                  synRate := u.1, misRate := u.2 }
                ⟨(dsetdefault d.mis pos).2, (dsetdefault d.syn pos).2,
                  (dsetdefault d.misVar pos).2, (dsetdefault d.synVar pos).2⟩
              with ⟨r1, d2, ok⟩
            rw [hnl] at h
            have lmono := spNeighborLoop_contains_mono nc ns rt _ _ _ _ _ _ hnl k
            have comp :
                (dcontains d.mis k = true → dcontains d2.mis k = true) ∧
                (dcontains d.syn k = true → dcontains d2.syn k = true) ∧
                (dcontains d.misVar k = true → dcontains d2.misVar k = true) ∧
                (dcontains d.synVar k = true → dcontains d2.synVar k = true) :=
              ⟨fun hk => lmono.1 (dsetdefault_contains_mono _ _ _ hk),
                fun hk => lmono.2.1 (dsetdefault_contains_mono _ _ _ hk),
                fun hk => lmono.2.2.1 (dsetdefault_contains_mono _ _ _ hk),
                fun hk => lmono.2.2.2 (dsetdefault_contains_mono _ _ _ hk)⟩
            cases ok with
            | false =>
              rw [if_neg (by simp)] at h
              simp only [Prod.mk.injEq] at h
              obtain ⟨-, hd⟩ := h
              subst hd
              exact comp
            | true =>
              rw [if_pos rfl] at h
              by_cases hctx :
                  (get_codon_seq_context (co pos ++ [pos]) cds).length = 0
              · rw [if_pos hctx] at h
                simp only [Prod.mk.injEq] at h
                obtain ⟨-, hd⟩ := h
                subst hd
                exact comp
              · rw [if_neg hctx] at h
                simp only [Prod.mk.injEq] at h
                obtain ⟨-, hd⟩ := h
                subst hd
                exact comp
    · rw [if_pos (by simpa using haa)] at h
      simp only [Prod.mk.injEq] at h
      obtain ⟨-, hd⟩ := h
      subst hd
      exact ⟨id, id, id, id⟩

theorem spRun_contains_mono (ch : Nat → Option Char) (co : Nat → List Nat)
    (nc : List (Nat × Nat)) (ns rt : List (ℚ × ℚ)) (cds : List Char) :
    ∀ (l : List (Nat × Char)) (d : Dicts) (k : Nat),
      (dcontains d.mis k = true →
        dcontains (spRun ch co nc ns rt cds l d).2.1.mis k = true) ∧
      (dcontains d.syn k = true →
        dcontains (spRun ch co nc ns rt cds l d).2.1.syn k = true) ∧
      (dcontains d.misVar k = true →
        dcontains (spRun ch co nc ns rt cds l d).2.1.misVar k = true) ∧
      (dcontains d.synVar k = true →
        dcontains (spRun ch co nc ns rt cds l d).2.1.synVar k = true) := by
  intro l
  induction l with
  | nil =>
    intro d k
    simp only [spRun]
    exact ⟨id, id, id, id⟩
  | cons pa rest ih =>
    intro d k
    rcases pa with ⟨p, a⟩
    rcases hstep : spStep ch co nc ns rt cds d p a with ⟨out, d1⟩
    have hmono := spStep_contains_mono ch co nc ns rt cds d p a out d1 hstep k
    cases out with
    | skipMissing =>
      simp only [spRun, hstep]
      have step := ih d1 k
      exact ⟨fun hk => step.1 (hmono.1 hk), fun hk => step.2.1 (hmono.2.1 hk),
        fun hk => step.2.2.1 (hmono.2.2.1 hk),
        fun hk => step.2.2.2 (hmono.2.2.2 hk)⟩
    | skipEmptyContext =>
      simp only [spRun, hstep]
      have step := ih d1 k
      exact ⟨fun hk => step.1 (hmono.1 hk), fun hk => step.2.1 (hmono.2.1 hk),
        fun hk => step.2.2.1 (hmono.2.2.1 hk),
        fun hk => step.2.2.2 (hmono.2.2.2 hk)⟩
    | abortMismatch =>
      simp only [spRun, hstep]
      exact hmono
    | abortOutOfRange =>
      simp only [spRun, hstep]
      exact hmono
    | crash =>
      simp only [spRun, hstep]
      exact hmono
    | emit r =>
      rcases hrun : spRun ch co nc ns rt cds rest d1 with ⟨rs, d2, o⟩
      simp only [spRun, hstep, hrun]
      have step := ih d1 k
      rw [hrun] at step
      exact ⟨fun hk => step.1 (hmono.1 hk), fun hk => step.2.1 (hmono.2.1 hk),
        fun hk => step.2.2.1 (hmono.2.2.1 hk),
        fun hk => step.2.2.2 (hmono.2.2.2 hk)⟩

theorem cosStep_contains_mono (mp : Nat → Option Nat) (cr : Nat → Option Char)
    (co : Nat → List Nat) (mq : Nat → Option Nat) (nc : List (Nat × Nat))
    (ns rt : List (ℚ × ℚ)) (ph xs : List ℚ) (cds : List Char) (d : Dicts)
    (i : Nat) (a : Char) (out : CosStepOut) (d' : Dicts)
    (h : cosStep mp cr co mq nc ns rt ph xs cds d i a = (out, d')) (k : Nat) :
    (dcontains d.mis k = true → dcontains d'.mis k = true) ∧
    (dcontains d.syn k = true → dcontains d'.syn k = true) ∧
    (dcontains d.misVar k = true → dcontains d'.misVar k = true) ∧
    (dcontains d.synVar k = true → dcontains d'.synVar k = true) := by
  have base :
      (dcontains d.mis k = true →
        dcontains ((⟨(dsetdefault d.mis i).2, (dsetdefault d.syn i).2,
          (dsetdefault d.misVar i).2, (dsetdefault d.synVar i).2⟩ : Dicts)).mis k = true) ∧
      (dcontains d.syn k = true →
        dcontains ((⟨(dsetdefault d.mis i).2, (dsetdefault d.syn i).2,
          (dsetdefault d.misVar i).2, (dsetdefault d.synVar i).2⟩ : Dicts)).syn k = true) ∧
      (dcontains d.misVar k = true →
        dcontains ((⟨(dsetdefault d.mis i).2, (dsetdefault d.syn i).2,
          (dsetdefault d.misVar i).2, (dsetdefault d.synVar i).2⟩ : Dicts)).misVar k = true) ∧
      (dcontains d.synVar k = true →
        dcontains ((⟨(dsetdefault d.mis i).2, (dsetdefault d.syn i).2,
          (dsetdefault d.misVar i).2, (dsetdefault d.synVar i).2⟩ : Dicts)).synVar k = true) :=
    ⟨fun hk => dsetdefault_contains_mono _ _ _ hk,
      fun hk => dsetdefault_contains_mono _ _ _ hk,
      fun hk => dsetdefault_contains_mono _ _ _ hk,
      fun hk => dsetdefault_contains_mono _ _ _ hk⟩
  unfold cosStep at h
  cases hmp : mp i with
  | none =>
    rw [hmp] at h
    simp only [Prod.mk.injEq] at h
    obtain ⟨-, hd⟩ := h
    subst hd
    exact ⟨id, id, id, id⟩
  | some pp =>
    rw [hmp] at h
    dsimp only [] at h
    cases hcr : cr pp with
    | none =>
      rw [hcr] at h
      simp only [Prod.mk.injEq] at h
      obtain ⟨-, hd⟩ := h
      subst hd
      exact ⟨id, id, id, id⟩
    | some pdbAa =>
      rw [hcr] at h
      dsimp only [] at h
      by_cases haa : a = pdbAa
      · rw [if_neg (by simpa using haa)] at h
        cases hc0 : nc[i - 1]? with
        | none =>
          rw [hc0] at h
          simp only [Prod.mk.injEq] at h
          obtain ⟨-, hd⟩ := h
          subst hd
          exact base
        | some c =>
          rw [hc0] at h
          cases hs0 : ns[i - 1]? with
          | none =>
            rw [hs0] at h
            simp only [Prod.mk.injEq] at h
            obtain ⟨-, hd⟩ := h
            subst hd
            exact base
          | some s =>
            rw [hs0] at h
            cases hu0 : rt[i - 1]? with
            | none =>
              rw [hu0] at h
              simp only [Prod.mk.injEq] at h
              obtain ⟨-, hd⟩ := h
              subst hd
              exact base
            | some u =>
              rw [hu0] at h
              cases hp0 : ph[i - 1]? with
              | none =>
                rw [hp0] at h
                simp only [Prod.mk.injEq] at h
                obtain ⟨-, hd⟩ := h
                subst hd
                exact base
              | some p0 =>
                rw [hp0] at h
                dsimp only [] at h
                cases hx0 : xs[i - 1]? with
                | none =>
                  rw [hx0] at h
                  simp only [Prod.mk.injEq] at h
                  obtain ⟨-, hd⟩ := h
                  subst hd
                  exact base
                | some x0 =>
                  rw [hx0] at h
                  dsimp only [] at h
                  by_cases hctx :
                      (get_codon_seq_context (co pp ++ [i]) cds).length = 0
                  · rw [if_pos hctx] at h
                    simp only [Prod.mk.injEq] at h
                    obtain ⟨-, hd⟩ := h
                    subst hd
                    exact base
                  · rw [if_neg hctx] at h
                    by_cases hemp : (co pp).isEmpty
                    · rw [if_pos hemp] at h
                      simp only [Prod.mk.injEq] at h
                      obtain ⟨-, hd⟩ := h
                      subst hd
                      exact base
                    · rw [if_neg hemp] at h
                      rcases hnl : cosNeighborLoop mq nc ns rt (co pp)
                          { pos := i, aa := a, numContacts := (co pp).length + 1,
                            misVarSites := (dsetdefault d.misVar i).1,
                            synVarSites := (dsetdefault d.synVar i).1,
                            misObs := (dsetdefault d.mis i).1,
                            synObs := (dsetdefault d.syn i).1,
                            misPoss := c.1, synPoss := c.2,
                            misSites := s.1, synSites := s.2,
                            synRate := u.1, misRate := u.2 }
                          ⟨(dsetdefault d.mis i).2, (dsetdefault d.syn i).2,
                            (dsetdefault d.misVar i).2, (dsetdefault d.synVar i).2⟩
                        with ⟨r1, d2⟩
                      rw [hnl] at h
                      simp only [Prod.mk.injEq] at h
                      obtain ⟨-, hd⟩ := h
                      subst hd
                      have lmono := cosNeighborLoop_contains_mono mq nc ns rt (co pp)
                          { pos := i, aa := a, numContacts := (co pp).length + 1,
                            misVarSites := (dsetdefault d.misVar i).1,
                            synVarSites := (dsetdefault d.synVar i).1,
                            misObs := (dsetdefault d.mis i).1,
                            synObs := (dsetdefault d.syn i).1,
                            misPoss := c.1, synPoss := c.2,
                            misSites := s.1, synSites := s.2,
                            synRate := u.1, misRate := u.2 }
                          (⟨(dsetdefault d.mis i).2, (dsetdefault d.syn i).2,
                            (dsetdefault d.misVar i).2,
                            (dsetdefault d.synVar i).2⟩ : Dicts) k
                      rw [hnl] at lmono
                      exact ⟨fun hk => lmono.1 (base.1 hk),
                        fun hk => lmono.2.1 (base.2.1 hk),
                        fun hk => lmono.2.2.1 (base.2.2.1 hk),
                        fun hk => lmono.2.2.2 (base.2.2.2 hk)⟩
      · rw [if_pos (by simpa using haa)] at h
        simp only [Prod.mk.injEq] at h
        obtain ⟨-, hd⟩ := h
        subst hd
        exact ⟨id, id, id, id⟩

theorem cosRun_contains_mono (mp : Nat → Option Nat) (cr : Nat → Option Char)
    (co : Nat → List Nat) (mq : Nat → Option Nat) (nc : List (Nat × Nat))
    (ns rt : List (ℚ × ℚ)) (ph xs : List ℚ) (cds : List Char) :
    ∀ (l : List (Nat × Char)) (d : Dicts) (k : Nat),
      (dcontains d.mis k = true →
        dcontains (cosRun mp cr co mq nc ns rt ph xs cds l d).2.1.mis k = true) ∧
      (dcontains d.syn k = true →
        dcontains (cosRun mp cr co mq nc ns rt ph xs cds l d).2.1.syn k = true) ∧
      (dcontains d.misVar k = true →
        dcontains (cosRun mp cr co mq nc ns rt ph xs cds l d).2.1.misVar k = true) ∧
      (dcontains d.synVar k = true →
        dcontains (cosRun mp cr co mq nc ns rt ph xs cds l d).2.1.synVar k = true) := by
  intro l
  induction l with
  | nil =>
    intro d k
    simp only [cosRun]
    exact ⟨id, id, id, id⟩
  | cons pa rest ih =>
    intro d k
    rcases pa with ⟨i, a⟩
    rcases hstep : cosStep mp cr co mq nc ns rt ph xs cds d i a with ⟨out, d1⟩
    have hmono := cosStep_contains_mono mp cr co mq nc ns rt ph xs cds d i a
      out d1 hstep k
    cases out with
    | row r =>
      rcases hrun : cosRun mp cr co mq nc ns rt ph xs cds rest d1 with ⟨rs, d2, o⟩
      simp only [cosRun, hstep, hrun]
      have step := ih d1 k
      rw [hrun] at step
      exact ⟨fun hk => step.1 (hmono.1 hk), fun hk => step.2.1 (hmono.2.1 hk),
        fun hk => step.2.2.1 (hmono.2.2.1 hk),
        fun hk => step.2.2.2 (hmono.2.2.2 hk)⟩
    | idxSkip =>
      simp only [cosRun, hstep]
      have step := ih d1 k
      exact ⟨fun hk => step.1 (hmono.1 hk), fun hk => step.2.1 (hmono.2.1 hk),
        fun hk => step.2.2.1 (hmono.2.2.1 hk),
        fun hk => step.2.2.2 (hmono.2.2.2 hk)⟩
    | skipEmptyContext =>
      simp only [cosRun, hstep]
      have step := ih d1 k
      exact ⟨fun hk => step.1 (hmono.1 hk), fun hk => step.2.1 (hmono.2.1 hk),
        fun hk => step.2.2.1 (hmono.2.2.1 hk),
        fun hk => step.2.2.2 (hmono.2.2.2 hk)⟩
    | noContacts =>
      simp only [cosRun, hstep]
      have step := ih d1 k
      exact ⟨fun hk => step.1 (hmono.1 hk), fun hk => step.2.1 (hmono.2.1 hk),
        fun hk => step.2.2.1 (hmono.2.2.1 hk),
        fun hk => step.2.2.2 (hmono.2.2.2 hk)⟩
    | crash =>
      simp only [cosRun, hstep]
      exact hmono

/-! ## Run-level unfolding lemmas -/

theorem spRun_cons_skipMissing (ch : Nat → Option Char) (co : Nat → List Nat)
    (nc : List (Nat × Nat)) (ns rt : List (ℚ × ℚ)) (cds : List Char)
    (p : Nat) (a : Char) (rest : List (Nat × Char)) (d : Dicts)
    (hch : ch p = none) :
    spRun ch co nc ns rt cds ((p, a) :: rest) d =
      spRun ch co nc ns rt cds rest d := by
  have hstep : spStep ch co nc ns rt cds d p a = (.skipMissing, d) := by
    unfold spStep
    rw [hch]
  simp only [spRun, hstep]

theorem spRun_cons_mismatch (ch : Nat → Option Char) (co : Nat → List Nat)
    (nc : List (Nat × Nat)) (ns rt : List (ℚ × ℚ)) (cds : List Char)
    (p : Nat) (a b : Char) (rest : List (Nat × Char)) (d : Dicts)
    (hch : ch p = some b) (hab : a ≠ b) :
    spRun ch co nc ns rt cds ((p, a) :: rest) d = ([], d, .invalid) := by
  have hstep : spStep ch co nc ns rt cds d p a = (.abortMismatch, d) := by
    unfold spStep
    rw [hch]
    dsimp only []
    rw [if_pos (by simpa using hab)]
  simp only [spRun, hstep]

theorem spRun_cons_abort (ch : Nat → Option Char) (co : Nat → List Nat)
    (nc : List (Nat × Nat)) (ns rt : List (ℚ × ℚ)) (cds : List Char)
    (p : Nat) (a : Char) (rest : List (Nat × Char)) (d d1 : Dicts)
    (hstep : spStep ch co nc ns rt cds d p a = (.abortOutOfRange, d1)) :
    spRun ch co nc ns rt cds ((p, a) :: rest) d = ([], d1, .invalid) := by
  simp only [spRun, hstep]

theorem cosRun_cons_row (mp : Nat → Option Nat) (cr : Nat → Option Char)
    (co : Nat → List Nat) (mq : Nat → Option Nat) (nc : List (Nat × Nat))
    (ns rt : List (ℚ × ℚ)) (ph xs : List ℚ) (cds : List Char)
    (i : Nat) (a : Char) (rest : List (Nat × Char)) (d d1 : Dicts)
    (row : CosRow)
    (hstep : cosStep mp cr co mq nc ns rt ph xs cds d i a = (.row row, d1)) :
    cosRun mp cr co mq nc ns rt ph xs cds ((i, a) :: rest) d =
      (row :: (cosRun mp cr co mq nc ns rt ph xs cds rest d1).1,
        (cosRun mp cr co mq nc ns rt ph xs cds rest d1).2.1,
        (cosRun mp cr co mq nc ns rt ph xs cds rest d1).2.2) := by
  rcases hrun : cosRun mp cr co mq nc ns rt ph xs cds rest d1 with ⟨rs, d2, o⟩
  simp only [cosRun, hstep, hrun]

theorem spStep_abort_iff (ch : Nat → Option Char) (co : Nat → List Nat)
    (nc : List (Nat × Nat)) (ns rt : List (ℚ × ℚ)) (cds : List Char)
    (d : Dicts) (pos : Nat) (aa : Char) (hch : ch pos = some aa)
    (hs0 : ns[pos - 1]?.isSome = true) (hc0 : nc[pos - 1]?.isSome = true)
    (hu0 : rt[pos - 1]?.isSome = true) :
    (spStep ch co nc ns rt cds d pos aa).1 = .abortOutOfRange ↔
      ∃ j ∈ co pos, nc[j - 1]? = none ∨ rt[j - 1]? = none ∨ ns[j - 1]? = none := by
  obtain ⟨s, hs⟩ := Option.isSome_iff_exists.mp hs0
  obtain ⟨c, hc⟩ := Option.isSome_iff_exists.mp hc0
  obtain ⟨u, hu⟩ := Option.isSome_iff_exists.mp hu0
  unfold spStep
  rw [hch]
  dsimp only []
  rw [if_neg (by simp)]
  rw [hs]
  dsimp only []
  rw [hc, hu]
  dsimp only []
  rcases hnl : spNeighborLoop nc ns rt (co pos)
      { pos := pos, aa := aa, numContacts := (co pos).length + 1,
        misVarSites := (dsetdefault d.misVar pos).1,
        synVarSites := (dsetdefault d.synVar pos).1,
        misObs := (dsetdefault d.mis pos).1,
        synObs := (dsetdefault d.syn pos).1,
        misPoss := c.1, synPoss := c.2, misSites := s.1, synSites := s.2,
        synRate := u.1, misRate := u.2 }
      ⟨(dsetdefault d.mis pos).2, (dsetdefault d.syn pos).2,
        (dsetdefault d.misVar pos).2, (dsetdefault d.synVar pos).2⟩
    with ⟨r1, d2, ok⟩
  have hiff := spNeighborLoop_fails_iff nc ns rt (co pos)
      { pos := pos, aa := aa, numContacts := (co pos).length + 1,
        misVarSites := (dsetdefault d.misVar pos).1,
        synVarSites := (dsetdefault d.synVar pos).1,
        misObs := (dsetdefault d.mis pos).1,
        synObs := (dsetdefault d.syn pos).1,
        misPoss := c.1, synPoss := c.2, misSites := s.1, synSites := s.2,
        synRate := u.1, misRate := u.2 }
      ⟨(dsetdefault d.mis pos).2, (dsetdefault d.syn pos).2,
        (dsetdefault d.misVar pos).2, (dsetdefault d.synVar pos).2⟩
  rw [hnl] at hiff
  rw [← hiff]
  cases ok with
  | false => simp
  | true =>
    rw [if_pos rfl]
    by_cases hctx : (get_codon_seq_context (co pos ++ [pos]) cds).length = 0
    · rw [if_pos hctx]
      simp
    · rw [if_neg hctx]
      simp

/-! ## C7: the reported contact count is the neighbor count plus one -/

/-- Claim C7: in both drivers, every full record appended to the output
carries, in the num_contacts column, the number of structurally
contacting neighbor residues of its center plus one: in the
protein-centric driver the center position indexes the contact list
directly; in the transcript-centric driver the contact list is indexed
by the PDB position the center maps to. -/
theorem c7_num_contacts :
    (∀ (ch : Nat → Option Char) (co : Nat → List Nat) (nc : List (Nat × Nat))
      (ns rt : List (ℚ × ℚ)) (cds : List Char) (l : List (Nat × Char))
      (d : Dicts), ∀ r ∈ (spRun ch co nc ns rt cds l d).1,
        r.numContacts = (co r.pos).length + 1) ∧
    (∀ (mp : Nat → Option Nat) (cr : Nat → Option Char) (co : Nat → List Nat)
      (mq : Nat → Option Nat) (nc : List (Nat × Nat)) (ns rt : List (ℚ × ℚ))
      (ph xs : List ℚ) (cds : List Char) (l : List (Nat × Char)) (d : Dicts),
      ∀ row ∈ (cosRun mp cr co mq nc ns rt ph xs cds l d).1,
      ∀ rec, row = CosRow.fullRow rec →
        ∃ pp, mp rec.pos = some pp ∧
          rec.numContacts = (co pp).length + 1) := by
  constructor
  · intro ch co nc ns rt cds l
    induction l with
    | nil => intro d r hr; simp [spRun] at hr
    | cons pa rest ih =>
      intro d r hr
      rcases pa with ⟨p, a⟩
      rcases hstep : spStep ch co nc ns rt cds d p a with ⟨out, d1⟩
      cases out with
      | skipMissing =>
        simp only [spRun, hstep] at hr
        exact ih d1 r hr
      | skipEmptyContext =>
        simp only [spRun, hstep] at hr
        exact ih d1 r hr
      | abortMismatch => simp only [spRun, hstep] at hr; simp at hr
      | abortOutOfRange => simp only [spRun, hstep] at hr; simp at hr
      | crash => simp only [spRun, hstep] at hr; simp at hr
      | emit r0 =>
        rcases hrun : spRun ch co nc ns rt cds rest d1 with ⟨rs, d2, o⟩
        simp only [spRun, hstep, hrun] at hr
        rcases List.mem_cons.mp hr with hr0 | hrrest
        · subst hr0
          have spec := spStep_emit_spec ch co nc ns rt cds d p a r d1 hstep
          rw [spec.2.1]
          exact spec.2.2.2.1
        · have := ih d1 r
          rw [hrun] at this
          exact this hrrest
  · intro mp cr co mq nc ns rt ph xs cds l
    induction l with
    | nil => intro d row hrow rec hrec; simp [cosRun] at hrow
    | cons pa rest ih =>
      intro d row hrow rec hrec
      rcases pa with ⟨i, a⟩
      rcases hstep : cosStep mp cr co mq nc ns rt ph xs cds d i a with ⟨out, d1⟩
      cases out with
      | idxSkip =>
        simp only [cosRun, hstep] at hrow
        exact ih d1 row hrow rec hrec
      | skipEmptyContext =>
        simp only [cosRun, hstep] at hrow
        exact ih d1 row hrow rec hrec
      | noContacts =>
        simp only [cosRun, hstep] at hrow
        exact ih d1 row hrow rec hrec
      | crash => simp only [cosRun, hstep] at hrow; simp at hrow
      | row row0 =>
        rcases hrun : cosRun mp cr co mq nc ns rt ph xs cds rest d1 with ⟨rs, d2, o⟩
        simp only [cosRun, hstep, hrun] at hrow
        rcases List.mem_cons.mp hrow with hrow0 | hrowrest
        · subst hrow0
          subst hrec
          obtain ⟨pp, hmp, -, hpos, -, hnum, -⟩ :=
            cosStep_fullRow_basic mp cr co mq nc ns rt ph xs cds d i a rec d1 hstep
          exact ⟨pp, by rw [hpos]; exact hmp, hnum⟩
        · have := ih d1 row
          rw [hrun] at this
          exact this hrowrest rec hrec

/-! ## C1: contact-set aggregation sums per-position statistics -/

/-- Claim C1: for every center position scored by the per-position loop,
the aggregated statistics equal the per-position values summed over the
center together with all contacting positions: in the protein-centric
driver the contact positions index the per-position data directly; in
the transcript-centric driver each contacting PDB position is first
mapped to a peptide coordinate (and, when all neighbors map and fall in
the codon range, the aggregate sums over all of them).  The ten
aggregated quantities are observed missense and synonymous counts, the
two site-variability indicator sums, possible missense/synonymous
counts, missense/synonymous site counts, and the two mutation rates. -/
theorem c1_contact_aggregation :
    (∀ (ch : Nat → Option Char) (co : Nat → List Nat) (nc : List (Nat × Nat))
      (ns rt : List (ℚ × ℚ)) (cds : List Char) (d : Dicts) (pos : Nat)
      (aa : Char) (r : FullRecord) (d' : Dicts),
      spStep ch co nc ns rt cds d pos aa = (.emit r, d') →
      r.misObs = dgetD d.mis pos + ((co pos).map (dgetD d.mis)).sum ∧
      r.synObs = dgetD d.syn pos + ((co pos).map (dgetD d.syn)).sum ∧
      r.misVarSites = dgetD d.misVar pos + ((co pos).map (dgetD d.misVar)).sum ∧
      r.synVarSites = dgetD d.synVar pos + ((co pos).map (dgetD d.synVar)).sum ∧
      r.misPoss = (nc[pos - 1]?.getD (0, 0)).1 +
        ((co pos).map (fun j => (nc[j - 1]?.getD (0, 0)).1)).sum ∧
      r.synPoss = (nc[pos - 1]?.getD (0, 0)).2 +
        ((co pos).map (fun j => (nc[j - 1]?.getD (0, 0)).2)).sum ∧
      r.misSites = (ns[pos - 1]?.getD (0, 0)).1 +
        ((co pos).map (fun j => (ns[j - 1]?.getD (0, 0)).1)).sum ∧
      r.synSites = (ns[pos - 1]?.getD (0, 0)).2 +
        ((co pos).map (fun j => (ns[j - 1]?.getD (0, 0)).2)).sum ∧
      r.synRate = (rt[pos - 1]?.getD (0, 0)).1 +
        ((co pos).map (fun j => (rt[j - 1]?.getD (0, 0)).1)).sum ∧
      r.misRate = (rt[pos - 1]?.getD (0, 0)).2 +
        ((co pos).map (fun j => (rt[j - 1]?.getD (0, 0)).2)).sum) ∧
    (∀ (mp : Nat → Option Nat) (cr : Nat → Option Char) (co : Nat → List Nat)
      (mq : Nat → Option Nat) (nc : List (Nat × Nat)) (ns rt : List (ℚ × ℚ))
      (ph xs : List ℚ) (cds : List Char) (d : Dicts) (i : Nat) (a : Char)
      (r : FullRecord) (d' : Dicts) (pp : Nat),
      mp i = some pp →
      (∀ j ∈ co pp, ∀ q, mq j = some q →
        nc[q - 1]?.isSome = true ∧ ns[q - 1]?.isSome = true ∧
        rt[q - 1]?.isSome = true) →
      cosStep mp cr co mq nc ns rt ph xs cds d i a = (.row (.fullRow r), d') →
      r.misObs = dgetD d.mis i + (((co pp).filterMap mq).map (dgetD d.mis)).sum ∧
      r.synObs = dgetD d.syn i + (((co pp).filterMap mq).map (dgetD d.syn)).sum ∧
      r.misVarSites =
        dgetD d.misVar i + (((co pp).filterMap mq).map (dgetD d.misVar)).sum ∧
      r.synVarSites =
        dgetD d.synVar i + (((co pp).filterMap mq).map (dgetD d.synVar)).sum ∧
      r.misPoss = (nc[i - 1]?.getD (0, 0)).1 +
        (((co pp).filterMap mq).map (fun q => (nc[q - 1]?.getD (0, 0)).1)).sum ∧
      r.synPoss = (nc[i - 1]?.getD (0, 0)).2 +
        (((co pp).filterMap mq).map (fun q => (nc[q - 1]?.getD (0, 0)).2)).sum ∧
      r.misSites = (ns[i - 1]?.getD (0, 0)).1 +
        (((co pp).filterMap mq).map (fun q => (ns[q - 1]?.getD (0, 0)).1)).sum ∧
      r.synSites = (ns[i - 1]?.getD (0, 0)).2 +
        (((co pp).filterMap mq).map (fun q => (ns[q - 1]?.getD (0, 0)).2)).sum ∧
      r.synRate = (rt[i - 1]?.getD (0, 0)).1 +
        (((co pp).filterMap mq).map (fun q => (rt[q - 1]?.getD (0, 0)).1)).sum ∧
      r.misRate = (rt[i - 1]?.getD (0, 0)).2 +
        (((co pp).filterMap mq).map (fun q => (rt[q - 1]?.getD (0, 0)).2)).sum) := by
  constructor
  · intro ch co nc ns rt cds d pos aa r d' h
    obtain ⟨-, -, -, -, h5, h6, h7, h8, h9, h10, h11, h12, h13, h14, -, -⟩ :=
      spStep_emit_spec ch co nc ns rt cds d pos aa r d' h
    exact ⟨h5, h6, h7, h8, h9, h10, h11, h12, h13, h14⟩
  · intro mp cr co mq nc ns rt ph xs cds d i a r d' pp hmp hrange h
    exact cosStep_fullRow_sums mp cr co mq nc ns rt ph xs cds d i a r d' pp
      hmp hrange h

theorem c1_contact_aggregation_witness :
    ((FullRecord.mk 5 'M' 3 2 0 3 0 18 9 3 6 3 6).misObs =
      dgetD [(5, 2), (3, 1)] 5 +
        (([3, 9] : List Nat).map (dgetD [(5, 2), (3, 1)])).sum) ∧
    dgetD [(5, 2), (3, 1)] 5 +
      (([3, 9] : List Nat).map (dgetD [(5, 2), (3, 1)])).sum = 3 ∧
    ((FullRecord.mk 5 'M' 3 2 0 3 0 18 9 3 6 3 6).misObs =
      dgetD [(5, 2), (3, 1)] 5 +
        ((([103, 109] : List Nat).filterMap
            (fun j => if j = 103 then some 3 else
              if j = 109 then some 9 else none)).map
          (dgetD [(5, 2), (3, 1)])).sum) := by
  refine ⟨?_, by decide, ?_⟩
  · have h := (c1_contact_aggregation.1 (fun p => if p = 5 then some 'M' else none)
      (fun p => if p = 5 then [3, 9] else []) (List.replicate 9 (6, 3))
      (List.replicate 9 ((1 : ℚ), 2)) (List.replicate 9 ((1 : ℚ), 2))
      (List.replicate 27 'A') ⟨[(5, 2), (3, 1)], [], [(5, 1), (3, 1)], []⟩ 5 'M'
      (FullRecord.mk 5 'M' 3 2 0 3 0 18 9 3 6 3 6)
      ⟨[(5, 2), (3, 1), (9, 0)], [(5, 0), (3, 0), (9, 0)],
        [(5, 1), (3, 1), (9, 0)], [(5, 0), (3, 0), (9, 0)]⟩
      (by norm_num [spStep, spNeighborLoop, dsetdefault, dget, dgetD,
        get_codon_seq_context, codonOf, List.getElem?_replicate])).1
    simpa using h
  · have h := (c1_contact_aggregation.2
      (fun i => if i = 5 then some 105 else none)
      (fun p => if p = 105 then some 'M' else none)
      (fun p => if p = 105 then [103, 109] else [])
      (fun j => if j = 103 then some 3 else if j = 109 then some 9 else none)
      (List.replicate 9 (6, 3)) (List.replicate 9 ((1 : ℚ), 2))
      (List.replicate 9 ((1 : ℚ), 2)) (List.replicate 9 (0 : ℚ))
      (List.replicate 9 (0 : ℚ)) (List.replicate 27 'A')
      ⟨[(5, 2), (3, 1)], [], [(5, 1), (3, 1)], []⟩ 5 'M'
      (FullRecord.mk 5 'M' 3 2 0 3 0 18 9 3 6 3 6)
      ⟨[(5, 2), (3, 1), (9, 0)], [(5, 0), (3, 0), (9, 0)],
        [(5, 1), (3, 1), (9, 0)], [(5, 0), (3, 0), (9, 0)]⟩ 105 rfl
      (by decide)
      (by norm_num [cosStep, cosNeighborLoop, dsetdefault, dget, dgetD,
        get_codon_seq_context, codonOf, List.getElem?_replicate])).1
    simpa using h

/-! ## C2: unmapped positions and out-of-range neighbors -/

/-- Claim C2 counterexample: the claim states that a position with no structural counterpart, or
a contacting neighbor outside the codon range, always yields exactly one
NaN-filled record and never suppresses the record or aborts.  It fails
for the protein-centric driver: with a structure containing no residue
at position 1, the per-position loop emits no record at all for that
position (`continue` without appending a row). -/
theorem c2_counterexample :
    ((fun _ : Nat => (none : Option Char)) 1 = none) ∧
    spRun (fun _ => none) (fun _ => []) [(6, 3)] [((1 : ℚ), 2)] [((1 : ℚ), 2)]
      ['A', 'A', 'A'] [(1, 'M')] ⟨[], [], [], []⟩ =
      ([], ⟨[], [], [], []⟩, .ok) :=
  ⟨rfl, by rfl⟩

/-- Claim C2 (amended): a position with no structural counterpart is
handled differently by the two drivers: the transcript-centric driver
emits exactly one NaN-filled record for it (whether the SIFTS mapping
or the chain lookup fails) and continues with the remaining positions,
while the protein-centric driver emits no record for it and continues.
A contacting neighbor whose mapped peptide position falls outside the
codon-index range does not produce a NaN record: in the
transcript-centric driver the row is still emitted, the neighbor
contributing its observed counts but not its expected-count, site or
rate terms; in the protein-centric driver the first such neighbor
aborts the remaining positions of the protein and invalidates the whole
run. -/
theorem c2_unmapped_position :
    (∀ (mp : Nat → Option Nat) (cr : Nat → Option Char) (co : Nat → List Nat)
      (mq : Nat → Option Nat) (nc : List (Nat × Nat)) (ns rt : List (ℚ × ℚ))
      (ph xs : List ℚ) (cds : List Char) (i : Nat) (a : Char)
      (rest : List (Nat × Char)) (d : Dicts), mp i = none →
      cosRun mp cr co mq nc ns rt ph xs cds ((i, a) :: rest) d =
        (CosRow.nanRow i a :: (cosRun mp cr co mq nc ns rt ph xs cds rest d).1,
          (cosRun mp cr co mq nc ns rt ph xs cds rest d).2.1,
          (cosRun mp cr co mq nc ns rt ph xs cds rest d).2.2)) ∧
    (∀ (mp : Nat → Option Nat) (cr : Nat → Option Char) (co : Nat → List Nat)
      (mq : Nat → Option Nat) (nc : List (Nat × Nat)) (ns rt : List (ℚ × ℚ))
      (ph xs : List ℚ) (cds : List Char) (i : Nat) (a : Char) (pp : Nat)
      (rest : List (Nat × Char)) (d : Dicts), mp i = some pp → cr pp = none →
      cosRun mp cr co mq nc ns rt ph xs cds ((i, a) :: rest) d =
        (CosRow.nanRow i a :: (cosRun mp cr co mq nc ns rt ph xs cds rest d).1,
          (cosRun mp cr co mq nc ns rt ph xs cds rest d).2.1,
          (cosRun mp cr co mq nc ns rt ph xs cds rest d).2.2)) ∧
    (∀ (ch : Nat → Option Char) (co : Nat → List Nat) (nc : List (Nat × Nat))
      (ns rt : List (ℚ × ℚ)) (cds : List Char) (p : Nat) (a : Char)
      (rest : List (Nat × Char)) (d : Dicts), ch p = none →
      spRun ch co nc ns rt cds ((p, a) :: rest) d =
        spRun ch co nc ns rt cds rest d) ∧
    (∀ (mq : Nat → Option Nat) (nc : List (Nat × Nat)) (ns rt : List (ℚ × ℚ))
      (j : Nat) (rest : List Nat) (r : FullRecord) (d : Dicts) (q : Nat),
      mq j = some q → nc[q - 1]? = none →
      cosNeighborLoop mq nc ns rt (j :: rest) r d =
        cosNeighborLoop mq nc ns rt rest
          { r with
            misObs := r.misObs + dgetD d.mis q,
            synObs := r.synObs + dgetD d.syn q,
            misVarSites := r.misVarSites + dgetD d.misVar q,
            synVarSites := r.synVarSites + dgetD d.synVar q }
          ⟨(dsetdefault d.mis q).2, (dsetdefault d.syn q).2,
            (dsetdefault d.misVar q).2, (dsetdefault d.synVar q).2⟩) ∧
    (∀ (ch : Nat → Option Char) (co : Nat → List Nat) (nc : List (Nat × Nat))
      (ns rt : List (ℚ × ℚ)) (cds : List Char) (p : Nat) (a : Char)
      (rest : List (Nat × Char)) (d d1 : Dicts),
      spStep ch co nc ns rt cds d p a = (.abortOutOfRange, d1) →
      spRun ch co nc ns rt cds ((p, a) :: rest) d = ([], d1, .invalid)) ∧
    (∀ (ch : Nat → Option Char) (co : Nat → List Nat) (nc : List (Nat × Nat))
      (ns rt : List (ℚ × ℚ)) (cds : List Char) (d : Dicts) (pos : Nat)
      (aa : Char), ch pos = some aa →
      ns[pos - 1]?.isSome = true → nc[pos - 1]?.isSome = true →
      rt[pos - 1]?.isSome = true →
      ((spStep ch co nc ns rt cds d pos aa).1 = .abortOutOfRange ↔
        ∃ j ∈ co pos,
          nc[j - 1]? = none ∨ rt[j - 1]? = none ∨ ns[j - 1]? = none)) := by
  refine ⟨?_, ?_, ?_, ?_, ?_, ?_⟩
  · intro mp cr co mq nc ns rt ph xs cds i a rest d hmp
    exact cosRun_cons_row mp cr co mq nc ns rt ph xs cds i a rest d d
      (CosRow.nanRow i a)
      (cosStep_nan_unmapped mp cr co mq nc ns rt ph xs cds d i a hmp)
  · intro mp cr co mq nc ns rt ph xs cds i a pp rest d hmp hcr
    exact cosRun_cons_row mp cr co mq nc ns rt ph xs cds i a rest d d
      (CosRow.nanRow i a)
      (cosStep_nan_missing mp cr co mq nc ns rt ph xs cds d i a pp hmp hcr)
  · intro ch co nc ns rt cds p a rest d hch
    exact spRun_cons_skipMissing ch co nc ns rt cds p a rest d hch
  · intro mq nc ns rt j rest r d q hq hnc
    exact cosNeighborLoop_out_of_range_step mq nc ns rt j rest r d q hq hnc
  · intro ch co nc ns rt cds p a rest d d1 hstep
    exact spRun_cons_abort ch co nc ns rt cds p a rest d d1 hstep
  · intro ch co nc ns rt cds d pos aa hch hs0 hc0 hu0
    exact spStep_abort_iff ch co nc ns rt cds d pos aa hch hs0 hc0 hu0

theorem c2_unmapped_position_witness :
    (cosRun (fun _ => none) (fun _ => some 'M') (fun _ => []) (fun _ => none)
      [(6, 3)] [((1 : ℚ), 2)] [((1 : ℚ), 2)] [(0 : ℚ)] [(0 : ℚ)]
      ['A', 'A', 'A'] [(1, 'M')] ⟨[], [], [], []⟩ =
      (CosRow.nanRow 1 'M' ::
          (cosRun (fun _ => none) (fun _ => some 'M') (fun _ => [])
            (fun _ => none) [(6, 3)] [((1 : ℚ), 2)] [((1 : ℚ), 2)] [(0 : ℚ)]
            [(0 : ℚ)] ['A', 'A', 'A'] [] ⟨[], [], [], []⟩).1,
        (cosRun (fun _ => none) (fun _ => some 'M') (fun _ => [])
          (fun _ => none) [(6, 3)] [((1 : ℚ), 2)] [((1 : ℚ), 2)] [(0 : ℚ)]
          [(0 : ℚ)] ['A', 'A', 'A'] [] ⟨[], [], [], []⟩).2.1,
        (cosRun (fun _ => none) (fun _ => some 'M') (fun _ => [])
          (fun _ => none) [(6, 3)] [((1 : ℚ), 2)] [((1 : ℚ), 2)] [(0 : ℚ)]
          [(0 : ℚ)] ['A', 'A', 'A'] [] ⟨[], [], [], []⟩).2.2)) ∧
    spRun (fun _ => (none : Option Char)) (fun _ => []) [(6, 3)]
      [((1 : ℚ), 2)] [((1 : ℚ), 2)] ['A', 'A', 'A'] [(2, 'K')]
      ⟨[], [], [], []⟩ =
      spRun (fun _ => (none : Option Char)) (fun _ => []) [(6, 3)]
        [((1 : ℚ), 2)] [((1 : ℚ), 2)] ['A', 'A', 'A'] [] ⟨[], [], [], []⟩ := by
  constructor
  · exact c2_unmapped_position.1 (fun _ => none) (fun _ => some 'M')
      (fun _ => []) (fun _ => none) [(6, 3)] [((1 : ℚ), 2)] [((1 : ℚ), 2)]
      [(0 : ℚ)] [(0 : ℚ)] ['A', 'A', 'A'] 1 'M' [] ⟨[], [], [], []⟩ rfl
  · exact c2_unmapped_position.2.2.1 (fun _ => none) (fun _ => [])
      [(6, 3)] [((1 : ℚ), 2)] [((1 : ℚ), 2)] ['A', 'A', 'A'] 2 'K' []
      ⟨[], [], [], []⟩ rfl

/-! ## C3: amino-acid mismatch handling -/

/-- Claim C3 counterexample: the claim states that a sequence/structure residue mismatch always
yields an identifier-only record and never aborts the rest of the
protein or the run.  It fails for the protein-centric driver: with the
structure reading 'K' where the sequence reads 'M' at position 1, the
loop emits no record at all — not even for the matching position 2 —
and the run is invalidated (`valid_case = False` followed by
`sys.exit(1)`). -/
theorem c3_counterexample :
    ((fun _ : Nat => some 'K') 1 = some 'K') ∧ 'M' ≠ 'K' ∧
    spRun (fun _ => some 'K') (fun _ => []) [(6, 3)] [((1 : ℚ), 2)]
      [((1 : ℚ), 2)] ['A', 'A', 'A'] [(1, 'M'), (2, 'K')] ⟨[], [], [], []⟩ =
      ([], ⟨[], [], [], []⟩, .invalid) :=
  ⟨rfl, by decide, by rfl⟩

/-- Claim C3 (amended): at a position where sequence and structure
disagree on the residue, the transcript-centric driver emits one record
carrying the identifiers (position, amino acids, PDB position) and no
aggregate statistics, then continues with the remaining positions; the
protein-centric driver instead emits no record for the position and
aborts both the remaining positions and the run. -/
theorem c3_mismatch :
    (∀ (mp : Nat → Option Nat) (cr : Nat → Option Char) (co : Nat → List Nat)
      (mq : Nat → Option Nat) (nc : List (Nat × Nat)) (ns rt : List (ℚ × ℚ))
      (ph xs : List ℚ) (cds : List Char) (i : Nat) (a : Char) (pp : Nat)
      (b : Char) (rest : List (Nat × Char)) (d : Dicts),
      mp i = some pp → cr pp = some b → a ≠ b →
      cosRun mp cr co mq nc ns rt ph xs cds ((i, a) :: rest) d =
        (CosRow.mismatchRow i a pp b ::
            (cosRun mp cr co mq nc ns rt ph xs cds rest d).1,
          (cosRun mp cr co mq nc ns rt ph xs cds rest d).2.1,
          (cosRun mp cr co mq nc ns rt ph xs cds rest d).2.2)) ∧
    (∀ (ch : Nat → Option Char) (co : Nat → List Nat) (nc : List (Nat × Nat))
      (ns rt : List (ℚ × ℚ)) (cds : List Char) (p : Nat) (a b : Char)
      (rest : List (Nat × Char)) (d : Dicts), ch p = some b → a ≠ b →
      spRun ch co nc ns rt cds ((p, a) :: rest) d = ([], d, .invalid)) := by
  constructor
  · intro mp cr co mq nc ns rt ph xs cds i a pp b rest d hmp hcr hab
    exact cosRun_cons_row mp cr co mq nc ns rt ph xs cds i a rest d d
      (CosRow.mismatchRow i a pp b)
      (cosStep_mismatch_row mp cr co mq nc ns rt ph xs cds d i a pp b hmp hcr hab)
  · intro ch co nc ns rt cds p a b rest d hch hab
    exact spRun_cons_mismatch ch co nc ns rt cds p a b rest d hch hab

theorem c3_mismatch_witness :
    spRun (fun _ => some 'R') (fun _ => []) [(6, 3)] [((1 : ℚ), 2)]
      [((1 : ℚ), 2)] ['A', 'A', 'A'] [(1, 'W'), (2, 'R')] ⟨[], [], [], []⟩ =
      ([], ⟨[], [], [], []⟩, .invalid) :=
  c3_mismatch.2 (fun _ => some 'R') (fun _ => []) [(6, 3)] [((1 : ℚ), 2)]
    [((1 : ℚ), 2)] ['A', 'A', 'A'] 1 'W' 'R' [(2, 'R')] ⟨[], [], [], []⟩
    rfl (by decide)

theorem c7_num_contacts_witness :
    (FullRecord.mk 1 'M' 1 0 0 0 0 6 3 1 2 1 2).numContacts =
      ((fun _ : Nat => ([] : List Nat))
        (FullRecord.mk 1 'M' 1 0 0 0 0 6 3 1 2 1 2).pos).length + 1 :=
  c7_num_contacts.1 (fun _ => some 'M') (fun _ => []) [(6, 3)] [((1 : ℚ), 2)]
    [((1 : ℚ), 2)] ['A', 'A', 'A'] [(1, 'M')] ⟨[], [], [], []⟩
    (FullRecord.mk 1 'M' 1 0 0 0 0 6 3 1 2 1 2) (by decide)

/-! ## C8: center-position per-codon lookups are in range -/

theorem codons_length :
    ∀ (n : Nat) (cds : List Char), cds.length = 3 * n →
      (codons cds).length = n := by
  intro n
  induction n with
  | zero =>
    intro cds h
    rw [Nat.mul_zero, List.length_eq_zero] at h
    subst h
    rfl
  | succ n ih =>
    intro cds h
    rcases cds with _ | ⟨a, rest1⟩
    · simp at h
    · rcases rest1 with _ | ⟨b, rest2⟩
      · simp at h; omega
      · rcases rest2 with _ | ⟨c, rest⟩
        · simp at h; omega
        · have hr : rest.length = 3 * n := by
            simp only [List.length_cons] at h
            omega
          simp only [codons, List.length_cons, ih rest hr]

theorem cosStep_idxSkip_inv (mp : Nat → Option Nat) (cr : Nat → Option Char)
    (co : Nat → List Nat) (mq : Nat → Option Nat) (nc : List (Nat × Nat))
    (ns rt : List (ℚ × ℚ)) (ph xs : List ℚ) (cds : List Char) (d : Dicts)
    (i : Nat) (a : Char) (d' : Dicts)
    (h : cosStep mp cr co mq nc ns rt ph xs cds d i a = (.idxSkip, d')) :
    nc[i - 1]? = none ∨ ns[i - 1]? = none ∨ rt[i - 1]? = none ∨
      ph[i - 1]? = none := by
  unfold cosStep at h
  cases hmp : mp i with
  | none => rw [hmp] at h; simp at h
  | some pp =>
    rw [hmp] at h
    dsimp only [] at h
    cases hcr : cr pp with
    | none => rw [hcr] at h; simp at h
    | some pdbAa =>
      rw [hcr] at h
      dsimp only [] at h
      by_cases haa : a = pdbAa
      · rw [if_neg (by simpa using haa)] at h
        cases hc0 : nc[i - 1]? with
        | none => exact Or.inl rfl
        | some c =>
          rw [hc0] at h
          cases hs0 : ns[i - 1]? with
          | none => exact Or.inr (Or.inl rfl)
          | some s =>
            rw [hs0] at h
            cases hu0 : rt[i - 1]? with
            | none => exact Or.inr (Or.inr (Or.inl rfl))
            | some u =>
              rw [hu0] at h
              cases hp0 : ph[i - 1]? with
              | none => exact Or.inr (Or.inr (Or.inr rfl))
              | some p0 =>
                rw [hp0] at h
                dsimp only [] at h
                cases hx0 : xs[i - 1]? with
                | none => rw [hx0] at h; simp at h
                | some x0 =>
                  rw [hx0] at h
                  dsimp only [] at h
                  by_cases hctx :
                      (get_codon_seq_context (co pp ++ [i]) cds).length = 0
                  · rw [if_pos hctx] at h; simp at h
                  · rw [if_neg hctx] at h
                    by_cases hemp : (co pp).isEmpty
                    · rw [if_pos hemp] at h; simp at h
                    · rw [if_neg hemp] at h
                      rcases hnl : cosNeighborLoop mq nc ns rt (co pp)
                          { pos := i, aa := a, numContacts := (co pp).length + 1,
                            misVarSites := (dsetdefault d.misVar i).1,
                            synVarSites := (dsetdefault d.synVar i).1,
                            misObs := (dsetdefault d.mis i).1,
                            synObs := (dsetdefault d.syn i).1,
                            misPoss := c.1, synPoss := c.2,
                            misSites := s.1, synSites := s.2,
                            synRate := u.1, misRate := u.2 }
                          ⟨(dsetdefault d.mis i).2, (dsetdefault d.syn i).2,
                            (dsetdefault d.misVar i).2, (dsetdefault d.synVar i).2⟩
                        with ⟨r1, d2⟩
                      rw [hnl] at h
                      simp at h
      · rw [if_pos (by simpa using haa)] at h
        simp at h

theorem spStep_crash_inv (ch : Nat → Option Char) (co : Nat → List Nat)
    (nc : List (Nat × Nat)) (ns rt : List (ℚ × ℚ)) (cds : List Char)
    (d : Dicts) (pos : Nat) (aa : Char) (d' : Dicts)
    (h : spStep ch co nc ns rt cds d pos aa = (.crash, d')) :
    ns[pos - 1]? = none ∨ nc[pos - 1]? = none ∨ rt[pos - 1]? = none := by
  unfold spStep at h
  cases hch : ch pos with
  | none => rw [hch] at h; simp at h
  | some pdbAa =>
    rw [hch] at h
    dsimp only [] at h
    by_cases haa : aa = pdbAa
    · rw [if_neg (by simpa using haa)] at h
      cases hs0 : ns[pos - 1]? with
      | none => exact Or.inl rfl
      | some s =>
        rw [hs0] at h
        dsimp only [] at h
        cases hc0 : nc[pos - 1]? with
        | none => exact Or.inr (Or.inl rfl)
        | some c =>
          rw [hc0] at h
          cases hu0 : rt[pos - 1]? with
          | none => exact Or.inr (Or.inr rfl)
          | some u =>
            rw [hu0] at h
            dsimp only [] at h
            rcases hnl : spNeighborLoop nc ns rt (co pos)
                { pos := pos, aa := aa, numContacts := (co pos).length + 1,
                  misVarSites := (dsetdefault d.misVar pos).1,
                  synVarSites := (dsetdefault d.synVar pos).1,
                  misObs := (dsetdefault d.mis pos).1,
                  synObs := (dsetdefault d.syn pos).1,
                  misPoss := c.1, synPoss := c.2, misSites := s.1, synSites := s.2,
                  synRate := u.1, misRate := u.2 }
                ⟨(dsetdefault d.mis pos).2, (dsetdefault d.syn pos).2,
                  (dsetdefault d.misVar pos).2, (dsetdefault d.synVar pos).2⟩
              with ⟨r1, d2, ok⟩
            rw [hnl] at h
            cases ok with
            | false => rw [if_neg (by simp)] at h; simp at h
            | true =>
              rw [if_pos rfl] at h
              by_cases hctx :
                  (get_codon_seq_context (co pos ++ [pos]) cds).length = 0
              · rw [if_pos hctx] at h; simp at h
              · rw [if_neg hctx] at h; simp at h
    · rw [if_pos (by simpa using haa)] at h
      simp at h

/-- Claim C8 counterexample: the claim states that after the CDS-length validation the
IndexError fallback branch guarding the center-position lookups in
`cosmis.py` is unreachable.  It is reachable: the same `try` block also
reads the phyloP score list at `i - 1`, which has no length guarantee.
Concretely, with the 6-nucleotide CDS `ATGTAA` (peptide length 1), all
three per-codon arrays have the required 2 entries and position 1 is in
range, yet an empty phyloP list sends position 1 into the fallback
branch (`idxSkip`: `continue` with no record). -/
theorem c8_counterexample :
    (count_poss_ns_variants (fun _ => (6, 3))
      ['A', 'T', 'G', 'T', 'A', 'A']).length = 1 + 1 ∧
    (count_ns_sites (fun _ => ((1 : ℚ), 2))
      ['A', 'T', 'G', 'T', 'A', 'A']).length = 1 + 1 ∧
    (get_codon_mutation_rates (fun _ => ((1 : ℚ), 2))
      ['A', 'T', 'G', 'T', 'A', 'A']).length = 1 + 1 ∧
    (cosStep (fun i => if i = 1 then some 1 else none)
      (fun p => if p = 1 then some 'M' else none) (fun _ => []) (fun _ => none)
      (count_poss_ns_variants (fun _ => (6, 3)) ['A', 'T', 'G', 'T', 'A', 'A'])
      (count_ns_sites (fun _ => ((1 : ℚ), 2)) ['A', 'T', 'G', 'T', 'A', 'A'])
      (get_codon_mutation_rates (fun _ => ((1 : ℚ), 2))
        ['A', 'T', 'G', 'T', 'A', 'A'])
      ([] : List ℚ) [(0 : ℚ)] ['A', 'T', 'G', 'T', 'A', 'A']
      ⟨[], [], [], []⟩ 1 'M').1 = .idxSkip :=
  ⟨rfl, rfl, rfl, by decide⟩

/-- Claim C8 (amended): the transcript-centric driver's upstream check
`len(cds)/3 == len(pep)+1` is equivalent to the CDS having exactly
`peptide_length + 1` codons, so the three per-codon arrays computed on
the untrimmed CDS each have `peptide_length + 1` entries and every
center lookup at `i - 1` (for `1 ≤ i ≤ peptide_length`) is in range;
the IndexError fallback branch remains reachable through the phyloP
lookup in the same `try` block, and is unreachable whenever the phyloP
list also has at least `peptide_length` entries.  In the
protein-centric driver the stop codon is removed first, the arrays have
exactly `peptide_length` entries, and the unguarded center lookups
cannot crash for center positions up to `peptide_length`. -/
theorem c8_center_lookups :
    (∀ (cdsLen pepLen : Nat),
      ((cdsLen : ℚ) / 3 = (pepLen : ℚ) + 1) ↔ cdsLen = 3 * (pepLen + 1)) ∧
    (∀ (cds : List Char) (pepLen : Nat) (f : List Char → Nat × Nat)
      (g h' : List Char → ℚ × ℚ), cds.length = 3 * (pepLen + 1) →
      ∀ i, 1 ≤ i → i ≤ pepLen →
        i - 1 < (count_poss_ns_variants f cds).length ∧
        i - 1 < (count_ns_sites g cds).length ∧
        i - 1 < (get_codon_mutation_rates h' cds).length) ∧
    (∀ (cds : List Char) (pepLen : Nat) (f : List Char → Nat × Nat)
      (g h' : List Char → ℚ × ℚ) (ph xs : List ℚ) (mp : Nat → Option Nat)
      (cr : Nat → Option Char) (co : Nat → List Nat) (mq : Nat → Option Nat)
      (d : Dicts) (i : Nat) (a : Char),
      cds.length = 3 * (pepLen + 1) → pepLen ≤ ph.length →
      1 ≤ i → i ≤ pepLen →
      (cosStep mp cr co mq (count_poss_ns_variants f cds) (count_ns_sites g cds)
        (get_codon_mutation_rates h' cds) ph xs cds d i a).1 ≠ .idxSkip) ∧
    (∀ (cds : List Char) (pepLen : Nat) (f : List Char → Nat × Nat)
      (g h' : List Char → ℚ × ℚ) (ch : Nat → Option Char) (co : Nat → List Nat)
      (d : Dicts) (pos : Nat) (a : Char), cds.length = 3 * (pepLen + 1) →
      ((count_poss_ns_variants f (trim_stop cds)).length = pepLen ∧
       (count_ns_sites g (trim_stop cds)).length = pepLen ∧
       (get_codon_mutation_rates h' (trim_stop cds)).length = pepLen) ∧
      (1 ≤ pos → pos ≤ pepLen →
        (spStep ch co (count_poss_ns_variants f (trim_stop cds))
          (count_ns_sites g (trim_stop cds))
          (get_codon_mutation_rates h' (trim_stop cds)) (trim_stop cds)
          d pos a).1 ≠ .crash)) := by
  have harrays : ∀ (cds : List Char) (pepLen : Nat) (f : List Char → Nat × Nat)
      (g h' : List Char → ℚ × ℚ), cds.length = 3 * (pepLen + 1) →
      (count_poss_ns_variants f cds).length = pepLen + 1 ∧
      (count_ns_sites g cds).length = pepLen + 1 ∧
      (get_codon_mutation_rates h' cds).length = pepLen + 1 := by
    intro cds pepLen f g h' hlen
    have hcod := codons_length (pepLen + 1) cds hlen
    exact ⟨by simp [count_poss_ns_variants, hcod],
      by simp [count_ns_sites, hcod],
      by simp [get_codon_mutation_rates, hcod]⟩
  have htrim : ∀ (cds : List Char) (pepLen : Nat),
      cds.length = 3 * (pepLen + 1) → (trim_stop cds).length = 3 * pepLen := by
    intro cds pepLen hlen
    simp [trim_stop, hlen]
    omega
  refine ⟨?_, ?_, ?_, ?_⟩
  · intro cdsLen pepLen
    rw [div_eq_iff (by norm_num : (3 : ℚ) ≠ 0)]
    constructor
    · intro h
      have h2 : (cdsLen : ℚ) = ((3 * (pepLen + 1) : Nat) : ℚ) := by
        push_cast
        linarith
      exact_mod_cast h2
    · intro h
      subst h
      push_cast
      ring
  · intro cds pepLen f g h' hlen i h1 h2
    obtain ⟨e1, e2, e3⟩ := harrays cds pepLen f g h' hlen
    exact ⟨by omega, by omega, by omega⟩
  · intro cds pepLen f g h' ph xs mp cr co mq d i a hlen hph h1 h2 heq
    obtain ⟨e1, e2, e3⟩ := harrays cds pepLen f g h' hlen
    have h3 : cosStep mp cr co mq (count_poss_ns_variants f cds)
        (count_ns_sites g cds) (get_codon_mutation_rates h' cds) ph xs cds d i a =
        (.idxSkip, (cosStep mp cr co mq (count_poss_ns_variants f cds)
          (count_ns_sites g cds) (get_codon_mutation_rates h' cds)
          ph xs cds d i a).2) := by
      rcases hh : cosStep mp cr co mq (count_poss_ns_variants f cds)
          (count_ns_sites g cds) (get_codon_mutation_rates h' cds)
          ph xs cds d i a with ⟨o, dd⟩
      rw [hh] at heq
      simp only [] at heq
      rw [heq]
    have hinv := cosStep_idxSkip_inv mp cr co mq (count_poss_ns_variants f cds)
      (count_ns_sites g cds) (get_codon_mutation_rates h' cds) ph xs cds d i a
      _ h3
    rcases hinv with hx | hx | hx | hx <;>
      rw [List.getElem?_eq_none_iff] at hx <;> omega
  · intro cds pepLen f g h' ch co d pos a hlen
    have hlen2 := htrim cds pepLen hlen
    obtain ⟨e1, e2, e3⟩ : (count_poss_ns_variants f (trim_stop cds)).length =
          pepLen ∧ (count_ns_sites g (trim_stop cds)).length = pepLen ∧
          (get_codon_mutation_rates h' (trim_stop cds)).length = pepLen := by
      have hcod := codons_length pepLen (trim_stop cds) hlen2
      exact ⟨by simp [count_poss_ns_variants, hcod],
        by simp [count_ns_sites, hcod],
        by simp [get_codon_mutation_rates, hcod]⟩
    refine ⟨⟨e1, e2, e3⟩, ?_⟩
    intro h1 h2 heq
    have h3 : spStep ch co (count_poss_ns_variants f (trim_stop cds))
        (count_ns_sites g (trim_stop cds))
        (get_codon_mutation_rates h' (trim_stop cds)) (trim_stop cds) d pos a =
        (.crash, (spStep ch co (count_poss_ns_variants f (trim_stop cds))
          (count_ns_sites g (trim_stop cds))
          (get_codon_mutation_rates h' (trim_stop cds)) (trim_stop cds)
          d pos a).2) := by
      rcases hh : spStep ch co (count_poss_ns_variants f (trim_stop cds))
          (count_ns_sites g (trim_stop cds))
          (get_codon_mutation_rates h' (trim_stop cds)) (trim_stop cds)
          d pos a with ⟨o, dd⟩
      rw [hh] at heq
      simp only [] at heq
      rw [heq]
    have hinv := spStep_crash_inv ch co (count_poss_ns_variants f (trim_stop cds))
      (count_ns_sites g (trim_stop cds))
      (get_codon_mutation_rates h' (trim_stop cds)) (trim_stop cds) d pos a _ h3
    rcases hinv with hx | hx | hx <;>
      rw [List.getElem?_eq_none_iff] at hx <;> omega

theorem c8_center_lookups_witness :
    (((6 : Nat) : ℚ) / 3 = ((1 : Nat) : ℚ) + 1) ∧
    (1 - 1 < (count_poss_ns_variants (fun _ => (6, 3))
      ['A', 'T', 'G', 'T', 'A', 'A']).length) ∧
    ((cosStep (fun i => if i = 1 then some 1 else none)
      (fun p => if p = 1 then some 'M' else none) (fun _ => []) (fun _ => none)
      (count_poss_ns_variants (fun _ => (6, 3)) ['A', 'T', 'G', 'T', 'A', 'A'])
      (count_ns_sites (fun _ => ((1 : ℚ), 2)) ['A', 'T', 'G', 'T', 'A', 'A'])
      (get_codon_mutation_rates (fun _ => ((1 : ℚ), 2))
        ['A', 'T', 'G', 'T', 'A', 'A'])
      [(0 : ℚ)] [(0 : ℚ)] ['A', 'T', 'G', 'T', 'A', 'A']
      ⟨[], [], [], []⟩ 1 'M').1 ≠ .idxSkip) ∧
    ((spStep (fun _ => some 'M') (fun _ => [])
      (count_poss_ns_variants (fun _ => (6, 3))
        (trim_stop ['A', 'T', 'G', 'T', 'A', 'A']))
      (count_ns_sites (fun _ => ((1 : ℚ), 2))
        (trim_stop ['A', 'T', 'G', 'T', 'A', 'A']))
      (get_codon_mutation_rates (fun _ => ((1 : ℚ), 2))
        (trim_stop ['A', 'T', 'G', 'T', 'A', 'A']))
      (trim_stop ['A', 'T', 'G', 'T', 'A', 'A'])
      ⟨[], [], [], []⟩ 1 'M').1 ≠ .crash) := by
  refine ⟨?_, ?_, ?_, ?_⟩
  · exact (c8_center_lookups.1 6 1).mpr rfl
  · exact (c8_center_lookups.2.1 ['A', 'T', 'G', 'T', 'A', 'A'] 1
      (fun _ => (6, 3)) (fun _ => ((1 : ℚ), 2)) (fun _ => ((1 : ℚ), 2)) rfl 1
      (le_refl 1) (le_refl 1)).1
  · exact c8_center_lookups.2.2.1 ['A', 'T', 'G', 'T', 'A', 'A'] 1
      (fun _ => (6, 3)) (fun _ => ((1 : ℚ), 2)) (fun _ => ((1 : ℚ), 2))
      [(0 : ℚ)] [(0 : ℚ)] (fun i => if i = 1 then some 1 else none)
      (fun p => if p = 1 then some 'M' else none) (fun _ => []) (fun _ => none)
      ⟨[], [], [], []⟩ 1 'M' rfl (by decide) (le_refl 1) (le_refl 1)
  · exact (c8_center_lookups.2.2.2 ['A', 'T', 'G', 'T', 'A', 'A'] 1
      (fun _ => (6, 3)) (fun _ => ((1 : ℚ), 2)) (fun _ => ((1 : ℚ), 2))
      (fun _ => some 'M') (fun _ => []) ⟨[], [], [], []⟩ 1 'M' rfl).2
      (le_refl 1) (le_refl 1)

/-! ## C9: `setdefault` lookups insert queried keys as a side effect -/

/-- Claim C9: querying the observed-count and site-variability
dictionaries during per-position scoring never fails and yields the
stored value or 0, but because it is `dict.setdefault(pos, 0)` it
inserts absent keys with value 0.  Consequently: a full record's step
leaves the center position and every queried neighbor position present
in all four dictionaries (both drivers), and keys present in the
dictionaries persist to the end of the per-position loop, so after
scoring the dictionaries contain entries for every queried position,
not only for positions with observed variants. -/
theorem c9_setdefault_side_effect :
    (∀ (d : Dict) (k : Nat),
      (dsetdefault d k).1 = dgetD d k ∧
      dcontains (dsetdefault d k).2 k = true ∧
      (dget d k = none →
        (dsetdefault d k).1 = 0 ∧ (dsetdefault d k).2 = d ++ [(k, 0)])) ∧
    (∀ (ch : Nat → Option Char) (co : Nat → List Nat) (nc : List (Nat × Nat))
      (ns rt : List (ℚ × ℚ)) (cds : List Char) (d : Dicts) (pos : Nat)
      (aa : Char) (r : FullRecord) (d' : Dicts),
      spStep ch co nc ns rt cds d pos aa = (.emit r, d') →
      (dcontains d'.mis pos = true ∧ dcontains d'.syn pos = true ∧
        dcontains d'.misVar pos = true ∧ dcontains d'.synVar pos = true) ∧
      (∀ j ∈ co pos, dcontains d'.mis j = true ∧ dcontains d'.syn j = true ∧
        dcontains d'.misVar j = true ∧ dcontains d'.synVar j = true)) ∧
    (∀ (ch : Nat → Option Char) (co : Nat → List Nat) (nc : List (Nat × Nat))
      (ns rt : List (ℚ × ℚ)) (cds : List Char) (l : List (Nat × Char))
      (d : Dicts) (k : Nat),
      (dcontains d.mis k = true →
        dcontains (spRun ch co nc ns rt cds l d).2.1.mis k = true) ∧
      (dcontains d.syn k = true →
        dcontains (spRun ch co nc ns rt cds l d).2.1.syn k = true) ∧
      (dcontains d.misVar k = true →
        dcontains (spRun ch co nc ns rt cds l d).2.1.misVar k = true) ∧
      (dcontains d.synVar k = true →
        dcontains (spRun ch co nc ns rt cds l d).2.1.synVar k = true)) ∧
    (∀ (mp : Nat → Option Nat) (cr : Nat → Option Char) (co : Nat → List Nat)
      (mq : Nat → Option Nat) (nc : List (Nat × Nat)) (ns rt : List (ℚ × ℚ))
      (ph xs : List ℚ) (cds : List Char) (d : Dicts) (i : Nat) (a : Char)
      (r : FullRecord) (d' : Dicts),
      cosStep mp cr co mq nc ns rt ph xs cds d i a = (.row (.fullRow r), d') →
      ∃ pp, mp i = some pp ∧
        (dcontains d'.mis i = true ∧ dcontains d'.syn i = true ∧
          dcontains d'.misVar i = true ∧ dcontains d'.synVar i = true) ∧
        (∀ q ∈ (co pp).filterMap mq,
          dcontains d'.mis q = true ∧ dcontains d'.syn q = true ∧
          dcontains d'.misVar q = true ∧ dcontains d'.synVar q = true)) ∧
    (∀ (mp : Nat → Option Nat) (cr : Nat → Option Char) (co : Nat → List Nat)
      (mq : Nat → Option Nat) (nc : List (Nat × Nat)) (ns rt : List (ℚ × ℚ))
      (ph xs : List ℚ) (cds : List Char) (l : List (Nat × Char)) (d : Dicts)
      (k : Nat),
      (dcontains d.mis k = true →
        dcontains (cosRun mp cr co mq nc ns rt ph xs cds l d).2.1.mis k = true) ∧
      (dcontains d.syn k = true →
        dcontains (cosRun mp cr co mq nc ns rt ph xs cds l d).2.1.syn k = true) ∧
      (dcontains d.misVar k = true →
        dcontains (cosRun mp cr co mq nc ns rt ph xs cds l d).2.1.misVar k = true) ∧
      (dcontains d.synVar k = true →
        dcontains (cosRun mp cr co mq nc ns rt ph xs cds l d).2.1.synVar k = true)) := by
  refine ⟨?_, ?_, ?_, ?_, ?_⟩
  · intro d k
    exact ⟨dsetdefault_fst d k, dsetdefault_contains_self d k,
      fun h => dsetdefault_none d k h⟩
  · intro ch co nc ns rt cds d pos aa r d' h
    obtain ⟨-, -, -, -, -, -, -, -, -, -, -, -, -, -, hcen, hmem⟩ :=
      spStep_emit_spec ch co nc ns rt cds d pos aa r d' h
    exact ⟨hcen, hmem⟩
  · intro ch co nc ns rt cds l d k
    exact spRun_contains_mono ch co nc ns rt cds l d k
  · intro mp cr co mq nc ns rt ph xs cds d i a r d' h
    obtain ⟨pp, h1, -, -, -, -, hcen, hmem⟩ :=
      cosStep_fullRow_basic mp cr co mq nc ns rt ph xs cds d i a r d' h
    exact ⟨pp, h1, hcen, hmem⟩
  · intro mp cr co mq nc ns rt ph xs cds l d k
    exact cosRun_contains_mono mp cr co mq nc ns rt ph xs cds l d k

theorem c9_setdefault_side_effect_witness :
    ((dsetdefault ([] : Dict) 7).1 = dgetD ([] : Dict) 7) ∧
    (dcontains ((⟨[(1, 0)], [(1, 0)], [(1, 0)], [(1, 0)]⟩ : Dicts)).mis 1 = true) ∧
    (dcontains ([(3, 5)] : Dict) 3 = true →
      dcontains (spRun (fun _ => some 'M') (fun _ => []) [(6, 3)]
        [((1 : ℚ), 2)] [((1 : ℚ), 2)] ['A', 'A', 'A'] []
        ⟨[(3, 5)], [], [], []⟩).2.1.mis 3 = true) := by
  refine ⟨?_, ?_, ?_⟩
  · exact (c9_setdefault_side_effect.1 [] 7).1
  · exact ((c9_setdefault_side_effect.2.1 (fun _ => some 'M') (fun _ => [])
      [(6, 3)] [((1 : ℚ), 2)] [((1 : ℚ), 2)] ['A', 'A', 'A'] ⟨[], [], [], []⟩
      1 'M' (FullRecord.mk 1 'M' 1 0 0 0 0 6 3 1 2 1 2)
      ⟨[(1, 0)], [(1, 0)], [(1, 0)], [(1, 0)]⟩ (by decide)).1).1
  · exact (c9_setdefault_side_effect.2.2.1 (fun _ => some 'M') (fun _ => [])
      [(6, 3)] [((1 : ℚ), 2)] [((1 : ℚ), 2)] ['A', 'A', 'A'] []
      ⟨[(3, 5)], [], [], []⟩ 3).1

/-! ## C10: `retrieve_data` with multiple valid transcripts -/

theorem foldl_pickStep_none (varD : String → Option (List Variant)) :
    ∀ (valids : List String) (acc : Nat × String),
      (∀ e ∈ valids, varD e = none) →
      valids.foldl (pickStep varD) acc = acc := by
  intro valids
  induction valids with
  | nil => intro acc h; rfl
  | cons e rest ih =>
    intro acc h
    rw [List.foldl_cons]
    have he := h e (List.mem_cons_self _ _)
    have hstep : pickStep varD acc e = acc := by
      unfold pickStep
      rw [he]
    rw [hstep]
    exact ih acc (fun x hx => h x (List.mem_cons_of_mem _ hx))

theorem foldl_pickStep_max (varD : String → Option (List Variant)) :
    ∀ (valids : List String) (acc : Nat × String),
      ((acc.2 = "" ∧ acc.1 = 0) ∨
        ∃ u, varD acc.2 = some u ∧ u.length = acc.1) →
      (((valids.foldl (pickStep varD) acc).2 = "" ∧
          (valids.foldl (pickStep varD) acc).1 = 0) ∨
        ∃ u, varD (valids.foldl (pickStep varD) acc).2 = some u ∧
          u.length = (valids.foldl (pickStep varD) acc).1) ∧
      (∀ e ∈ valids, ∀ ws, varD e = some ws →
        ws.length ≤ (valids.foldl (pickStep varD) acc).1) ∧
      acc.1 ≤ (valids.foldl (pickStep varD) acc).1 := by
  intro valids
  induction valids with
  | nil =>
    intro acc hinv
    refine ⟨hinv, ?_, le_refl _⟩
    intro e he
    simp at he
  | cons e rest ih =>
    intro acc hinv
    rw [List.foldl_cons]
    cases hv : varD e with
    | none =>
      have hstep : pickStep varD acc e = acc := by
        unfold pickStep
        rw [hv]
      rw [hstep]
      obtain ⟨hinv', hmax, hle⟩ := ih acc hinv
      refine ⟨hinv', ?_, hle⟩
      intro e' he' ws hws
      rcases List.mem_cons.mp he' with he0 | her
      · subst he0
        rw [hv] at hws
        cases hws
      · exact hmax e' her ws hws
    | some vs =>
      by_cases hlt : acc.1 < vs.length
      · have hstep : pickStep varD acc e = (vs.length, e) := by
          unfold pickStep
          split
          · rename_i heq
            rw [hv] at heq
            cases heq
          · rename_i vs' heq
            rw [hv] at heq
            injection heq with heq
            subst heq
            rw [if_pos hlt]
        rw [hstep]
        obtain ⟨hinv', hmax, hle⟩ := ih (vs.length, e) (Or.inr ⟨vs, hv, rfl⟩)
        refine ⟨hinv', ?_, ?_⟩
        · intro e' he' ws hws
          rcases List.mem_cons.mp he' with he0 | her
          · subst he0
            rw [hv] at hws
            injection hws with hws
            subst hws
            exact hle
          · exact hmax e' her ws hws
        · exact le_trans (le_of_lt hlt) hle
      · have hstep : pickStep varD acc e = acc := by
          unfold pickStep
          split
          · rfl
          · rename_i vs' heq
            rw [hv] at heq
            injection heq with heq
            subst heq
            rw [if_neg hlt]
        rw [hstep]
        obtain ⟨hinv', hmax, hle⟩ := ih acc hinv
        refine ⟨hinv', ?_, hle⟩
        intro e' he' ws hws
        rcases List.mem_cons.mp he' with he0 | her
        · subst he0
          rw [hv] at hws
          injection hws with hws
          subst hws
          exact le_trans (Nat.le_of_not_lt hlt) hle
        · exact hmax e' her ws hws

/-- Claim C10: when more than one transcript passes CDS validation,
`retrieve_data` returns the valid transcript with the greatest number
of variant records; but when none of those valid transcripts has a
variant entry, the arbitration leaves `right_enst = ''` and the call
fails with a raw KeyError from subscripting the coding-sequence
dictionary at the empty string — not with the documented
`'No record ... in gnomAD'` error, which is only produced in the
single-valid-transcript case. -/
theorem c10_retrieve_data :
    (∀ (u : String) (ensts : List String) (pepD cdsD : String → Option (List Char))
      (varD : String → Option (List Variant)) (pep : List Char)
      (e1 e2 : String) (rest : List String),
      pepD u = some pep →
      valid_ensts_of pep.length cdsD ensts = e1 :: e2 :: rest →
      (∀ e ∈ e1 :: e2 :: rest, varD e = none) →
      cdsD "" = none →
      retrieve_data u ensts pepD cdsD varD = .error (.keyError "")) ∧
    (∀ (u : String) (ensts : List String) (pepD cdsD : String → Option (List Char))
      (varD : String → Option (List Variant)) (pep : List Char) (e : String),
      pepD u = some pep →
      valid_ensts_of pep.length cdsD ensts = [e] →
      varD e = none →
      retrieve_data u ensts pepD cdsD varD = .error (.noRecord u)) ∧
    (∀ (u : String) (ensts : List String) (pepD cdsD : String → Option (List Char))
      (varD : String → Option (List Variant)) (pep : List Char)
      (e1 e2 : String) (rest : List String) (enst : String) (pep' cds : List Char)
      (vs : List Variant),
      pepD u = some pep →
      valid_ensts_of pep.length cdsD ensts = e1 :: e2 :: rest →
      varD "" = none →
      retrieve_data u ensts pepD cdsD varD = .ok (enst, pep', cds, vs) →
      varD enst = some vs ∧
      ∀ e ∈ e1 :: e2 :: rest, ∀ ws, varD e = some ws →
        ws.length ≤ vs.length) := by
  refine ⟨?_, ?_, ?_⟩
  · intro u ensts pepD cdsD varD pep e1 e2 rest hpep hvalids hall hcds
    unfold retrieve_data
    rw [hpep]
    dsimp only []
    rw [hvalids]
    dsimp only []
    have hpick : pick_enst varD (e1 :: e2 :: rest) = "" := by
      unfold pick_enst
      rw [foldl_pickStep_none varD (e1 :: e2 :: rest) (0, "") hall]
    rw [hpick, hcds]
  · intro u ensts pepD cdsD varD pep e hpep hvalids hvar
    unfold retrieve_data
    rw [hpep]
    dsimp only []
    rw [hvalids]
    dsimp only []
    cases hc : cdsD e with
    | none =>
      exfalso
      have he : e ∈ valid_ensts_of pep.length cdsD ensts := by
        rw [hvalids]
        exact List.mem_cons_self _ _
      unfold valid_ensts_of at he
      have hpe := List.of_mem_filter he
      simp only [hc] at hpe
      exact Bool.false_ne_true hpe
    | some cds0 =>
      dsimp only []
      rw [hvar]
  · intro u ensts pepD cdsD varD pep e1 e2 rest enst pep' cds vs hpep hvalids
      hvempty hok
    unfold retrieve_data at hok
    rw [hpep] at hok
    dsimp only [] at hok
    rw [hvalids] at hok
    dsimp only [] at hok
    cases hc : cdsD (pick_enst varD (e1 :: e2 :: rest)) with
    | none => rw [hc] at hok; cases hok
    | some cds0 =>
      rw [hc] at hok
      dsimp only [] at hok
      cases hv : varD (pick_enst varD (e1 :: e2 :: rest)) with
      | none => rw [hv] at hok; cases hok
      | some vs0 =>
        rw [hv] at hok
        simp only [Except.ok.injEq, Prod.mk.injEq] at hok
        obtain ⟨henst, -, -, hvs⟩ := hok
        subst henst
        subst hvs
        have hspec := foldl_pickStep_max varD (e1 :: e2 :: rest) (0, "")
          (Or.inl ⟨rfl, rfl⟩)
        obtain ⟨hinv, hmax, -⟩ := hspec
        rcases hinv with ⟨hemp, -⟩ | ⟨w, hw, hwlen⟩
        · unfold pick_enst at hv
          rw [hemp] at hv
          rw [hvempty] at hv
          cases hv
        · unfold pick_enst at hv
          rw [hw] at hv
          injection hv with hv
          subst hv
          refine ⟨by rw [← hw]; rfl, ?_⟩
          intro e he ws hws
          rw [hwlen]
          exact hmax e he ws hws

theorem c10_retrieve_data_witness :
    (retrieve_data "P1" ["T1", "T2"]
      (fun x => if x = "P1" then some ['M'] else none)
      (fun e => if e = "T1" then some ['A', 'T', 'G', 'T', 'A', 'A'] else
        if e = "T2" then some ['A', 'T', 'G', 'T', 'A', 'A'] else none)
      (fun _ => none) = .error (.keyError "")) ∧
    (retrieve_data "P1" ["T1"]
      (fun x => if x = "P1" then some ['M'] else none)
      (fun e => if e = "T1" then some ['A', 'T', 'G', 'T', 'A', 'A'] else
        if e = "T2" then some ['A', 'T', 'G', 'T', 'A', 'A'] else none)
      (fun _ => none) = .error (.noRecord "P1")) := by
  constructor
  · exact c10_retrieve_data.1 "P1" ["T1", "T2"]
      (fun x => if x = "P1" then some ['M'] else none)
      (fun e => if e = "T1" then some ['A', 'T', 'G', 'T', 'A', 'A'] else
        if e = "T2" then some ['A', 'T', 'G', 'T', 'A', 'A'] else none)
      (fun _ => none) ['M'] "T1" "T2" [] rfl (by decide) (by decide) (by decide)
  · exact c10_retrieve_data.2.1 "P1" ["T1"]
      (fun x => if x = "P1" then some ['M'] else none)
      (fun e => if e = "T1" then some ['A', 'T', 'G', 'T', 'A', 'A'] else
        if e = "T2" then some ['A', 'T', 'G', 'T', 'A', 'A'] else none)
      (fun _ => none) ['M'] "T1" rfl (by decide) (by decide)

end Cosmis
